import Mathlib

/-!
# oss-forwarder: the forwarding handler and the liveness handler

A shallow embedding of `src/main.go`.  The two handlers, `OSSProxy.ServeHTTP`
and `healthCheck`, are translated statement by statement.  The Go standard
library calls they make (`net/url.Parse`, `http.NewRequest`, `http.Header`,
`http.Error`, `io.Copy`, `time.Time.Format`) are embedded next to them as
executable definitions that follow the library's control flow.

Conventions.
* A Go `string` is a byte sequence.  It is embedded as a Lean `String`
  (a `List Char` inside the URL parser), one character per byte.
* A Go `[]byte` payload is a `List UInt8`.
* A Go `map[string][]string` is an association list; the lookup
  `Header.values` is the map read `h[k]`.
* An `error` result is an `Except`.
* The caller's `http.ResponseWriter` and the upstream behind `http.Client.Do`
  are the environment.  The writer is embedded at the level of its interface,
  as the record of the calls the handler makes on it, each `Write` answered by
  the connection (`limit`); `Do` is an arbitrary function from the request it
  is handed to its result, and a handler's `outbound` list holds the requests
  handed to it.
* `net/url` and `net/http` are followed as of Go 1.22.
-/

set_option autoImplicit false

deriving instance DecidableEq for Except

namespace OSSForwarder

/-! ## Bytes and characters -/

/-- Payload of a `Write` call or of a body read. -/
abbrev Bytes := List UInt8

/-- The bytes of a Go string whose bytes are given one per character. -/
def bytesOf (s : String) : Bytes :=
  s.toList.map (fun c => UInt8.ofNat c.toNat)

def isLowerAZ (c : Char) : Bool := decide ('a' ≤ c) && decide (c ≤ 'z')

def isUpperAZ (c : Char) : Bool := decide ('A' ≤ c) && decide (c ≤ 'Z')

def isDigit09 (c : Char) : Bool := decide ('0' ≤ c) && decide (c ≤ '9')

/-! ## net/textproto and net/http: header maps -/

/-- The `tchar` table of `textproto.validHeaderFieldByte`. -/
def validHeaderFieldByte (c : Char) : Bool :=
  isLowerAZ c || isUpperAZ c || isDigit09 c ||
    "!#$%&'*+-.^_|~".toList.contains c || c == Char.ofNat 96

/-- The rewriting loop of `textproto.canonicalMIMEHeaderKey`: upper case at the
start and after each dash, lower case elsewhere. -/
def canonicalLoop : Bool → List Char → List Char
  | _, [] => []
  | upper, c :: cs =>
    let d : Char :=
      if upper && isLowerAZ c then Char.ofNat (c.toNat - 32)
      else if !upper && isUpperAZ c then Char.ofNat (c.toNat + 32)
      else c
    d :: canonicalLoop (d == '-') cs

/-- The function `textproto.CanonicalMIMEHeaderKey`: a key holding a byte that
is not a header field byte is returned unchanged. -/
def CanonicalMIMEHeaderKey (s : String) : String :=
  if s.toList.all validHeaderFieldByte then String.mk (canonicalLoop true s.toList) else s

/-- The type `http.Header`, a `map[string][]string`. -/
abbrev Header := List (String × List String)

namespace Header

/-- The map read `h[k]`: the zero value (`nil`) when the key is absent. -/
def values : Header → String → List String
  | [], _ => []
  | (k, vs) :: rest, key => if k = key then vs else values rest key

/-- The map write `h[k] = vs`. -/
def assign : Header → String → List String → Header
  | [], key, vs => [(key, vs)]
  | (k, ws) :: rest, key, vs =>
    if k = key then (k, vs) :: rest else (k, ws) :: assign rest key vs

/-- The builtin `delete(h, k)`. -/
def delete (h : Header) (key : String) : Header :=
  h.filter (fun kv => !(kv.1 == key))

/-- The keys present in the map. -/
def keys (h : Header) : List String := h.map Prod.fst

/-- The method `Header.Get`: the first value under the canonical key, or `""`. -/
def Get (h : Header) (key : String) : String :=
  match h.values (CanonicalMIMEHeaderKey key) with
  | [] => ""
  | v :: _ => v

/-- The method `Header.Set`. -/
def Set (h : Header) (key value : String) : Header :=
  h.assign (CanonicalMIMEHeaderKey key) [value]

/-- The method `Header.Add`. -/
def Add (h : Header) (key value : String) : Header :=
  let k := CanonicalMIMEHeaderKey key
  h.assign k (h.values k ++ [value])

/-- The method `Header.Del`. -/
def Del (h : Header) (key : String) : Header :=
  h.delete (CanonicalMIMEHeaderKey key)

end Header

/-! ## net/url -/

/-- The modes of `net/url`'s `encoding` type. -/
inductive Encoding
  | encodePath | encodePathSegment | encodeHost | encodeZone
  | encodeUserPassword | encodeQueryComponent | encodeFragment
  deriving DecidableEq, Repr

/-- Errors of `url.Parse` and `http.NewRequest`. -/
inductive RequestError
  | invalidControlCharacter
  | missingProtocolScheme
  | colonInFirstPathSegment
  | escapeError (s : String)
  | invalidHostError (s : String)
  | invalidPort (s : String)
  | missingBracket
  | invalidUserinfo
  | invalidMethod (m : String)
  deriving DecidableEq, Repr

/-- The type `url.Userinfo`. -/
structure Userinfo where
  username : String
  password : String
  passwordSet : Bool
  deriving DecidableEq, Repr

/-- The type `url.URL`. -/
structure URL where
  Scheme : String := ""
  Opaque : String := ""
  User : Option Userinfo := none
  Host : String := ""
  Path : String := ""
  RawPath : String := ""
  OmitHost : Bool := false
  ForceQuery : Bool := false
  RawQuery : String := ""
  Fragment : String := ""
  RawFragment : String := ""
  deriving DecidableEq, Repr

/-- The check `stringContainsCTLByte`: a byte below `' '` or equal to `0x7f`. -/
def stringContainsCTLByte (s : List Char) : Bool :=
  s.any (fun c => decide (c.toNat < 0x20) || decide (c.toNat = 0x7f))

/-- The function `strings.Cut` for a one-byte separator. -/
def cut (sep : Char) : List Char → List Char × List Char × Bool
  | [] => ([], [], false)
  | c :: cs =>
    if c = sep then ([], cs, true)
    else ((c :: (cut sep cs).1), (cut sep cs).2.1, (cut sep cs).2.2)

/-- The function `strings.Index` for a one-byte pattern. -/
def indexByte (sep : Char) : List Char → Option Nat
  | [] => none
  | c :: cs => if c = sep then some 0 else (indexByte sep cs).map (· + 1)

/-- The function `strings.LastIndex` for a one-byte pattern. -/
def lastIndexByte (sep : Char) : List Char → Option Nat
  | [] => none
  | c :: cs =>
    match lastIndexByte sep cs with
    | some i => some (i + 1)
    | none => if c = sep then some 0 else none

/-- The function `strings.Index` for a pattern of several bytes. -/
def indexSub (pat : List Char) : List Char → Option Nat
  | [] => if pat.isEmpty then some 0 else none
  | c :: cs =>
    if pat.isPrefixOf (c :: cs) then some 0 else (indexSub pat cs).map (· + 1)

def ishex (c : Char) : Bool :=
  isDigit09 c || (decide ('a' ≤ c) && decide (c ≤ 'f')) || (decide ('A' ≤ c) && decide (c ≤ 'F'))

def unhex (c : Char) : Nat :=
  if isDigit09 c then c.toNat - '0'.toNat
  else if decide ('a' ≤ c) && decide (c ≤ 'f') then c.toNat - 'a'.toNat + 10
  else if decide ('A' ≤ c) && decide (c ≤ 'F') then c.toNat - 'A'.toNat + 10
  else 0

/-- The function `shouldEscape` of `net/url`. -/
def shouldEscape (c : Char) (mode : Encoding) : Bool :=
  if isLowerAZ c || isUpperAZ c || isDigit09 c then false
  else if (mode = .encodeHost || mode = .encodeZone) && "!$&'()*+,;=:[]<>\"".toList.contains c then
    false
  else if "-_.~".toList.contains c then false
  else if "$&+,/:;=?@".toList.contains c then
    match mode with
    | .encodePath => c == '?'
    | .encodePathSegment => c == '/' || c == ';' || c == ',' || c == '?'
    | .encodeUserPassword => c == '@' || c == '/' || c == '?' || c == ':'
    | .encodeQueryComponent => true
    | .encodeFragment => false
    | _ => true
  else if mode = .encodeFragment && "!()*".toList.contains c then false
  else true

/-- First loop of `unescape`: every `%` starts a well-formed escape that the
mode allows, and in host mode every plain ASCII byte is a host byte. -/
def unescapeCheck (mode : Encoding) : List Char → Except RequestError Unit
  | [] => .ok ()
  | c :: rest =>
    if c = '%' then
      match rest with
      | h1 :: h2 :: tl =>
        if !(ishex h1 && ishex h2) then .error (.escapeError (String.mk [c, h1, h2]))
        else if mode = .encodeHost && decide (unhex h1 < 8) && !([h1, h2] == ['2', '5']) then
          .error (.escapeError (String.mk [c, h1, h2]))
        else if mode = .encodeZone && !([h1, h2] == ['2', '5'])
            && !(unhex h1 * 16 + unhex h2 == 32)
            && shouldEscape (Char.ofNat (unhex h1 * 16 + unhex h2)) .encodeHost then
          .error (.escapeError (String.mk [c, h1, h2]))
        else unescapeCheck mode tl
      | _ => .error (.escapeError (String.mk (c :: rest)))
    else if (mode = .encodeHost || mode = .encodeZone) && decide (c.toNat < 0x80)
        && shouldEscape c .encodeHost then
      .error (.invalidHostError (String.mk [c]))
    else unescapeCheck mode rest

/-- Second loop of `unescape`: the decoded bytes. -/
def unescapeDecode (mode : Encoding) : List Char → List Char
  | [] => []
  | c :: rest =>
    if c = '%' then
      match rest with
      | h1 :: h2 :: tl => Char.ofNat (unhex h1 * 16 + unhex h2) :: unescapeDecode mode tl
      | _ => c :: rest
    else if c = '+' && mode = .encodeQueryComponent then ' ' :: unescapeDecode mode rest
    else c :: unescapeDecode mode rest

/-- The function `unescape` of `net/url`. -/
def unescape (s : List Char) (mode : Encoding) : Except RequestError (List Char) :=
  match unescapeCheck mode s with
  | .error e => .error e
  | .ok () => .ok (unescapeDecode mode s)

def upperhex (n : Nat) : Char := "0123456789ABCDEF".toList.getD n '0'

/-- The function `escape` of `net/url`. -/
def escape (mode : Encoding) : List Char → List Char
  | [] => []
  | c :: cs =>
    if shouldEscape c mode then
      if c = ' ' && mode = .encodeQueryComponent then '+' :: escape mode cs
      else '%' :: upperhex (c.toNat / 16 % 16) :: upperhex (c.toNat % 16) :: escape mode cs
    else c :: escape mode cs

/-- Scanning loop of `getScheme`; `i` is the index of the byte at the head. -/
def getSchemeLoop (rawURL : List Char) : Nat → List Char → Except RequestError (List Char × List Char)
  | _, [] => .ok ([], rawURL)
  | i, c :: cs =>
    if isLowerAZ c || isUpperAZ c then getSchemeLoop rawURL (i + 1) cs
    else if isDigit09 c || c = '+' || c = '-' || c = '.' then
      if i = 0 then .ok ([], rawURL) else getSchemeLoop rawURL (i + 1) cs
    else if c = ':' then
      if i = 0 then .error .missingProtocolScheme else .ok (rawURL.take i, cs)
    else .ok ([], rawURL)

/-- The function `getScheme` of `net/url`. -/
def getScheme (rawURL : List Char) : Except RequestError (List Char × List Char) :=
  getSchemeLoop rawURL 0 rawURL

/-- The function `validOptionalPort` of `net/url`. -/
def validOptionalPort : List Char → Bool
  | [] => true
  | c :: cs => c == ':' && cs.all isDigit09

/-- The function `validUserinfo` of `net/url`. -/
def validUserinfo (s : List Char) : Bool :=
  s.all (fun r => isUpperAZ r || isLowerAZ r || isDigit09 r ||
    "-._:~!$&'()*+,;=%@".toList.contains r)

/-- The function `parseHost` of `net/url`. -/
def parseHost (host : List Char) : Except RequestError (List Char) :=
  if host.head? = some '[' then
    match lastIndexByte ']' host with
    | none => .error .missingBracket
    | some i =>
      let colonPort := host.drop (i + 1)
      if !validOptionalPort colonPort then .error (.invalidPort (String.mk colonPort))
      else
        match indexSub "%25".toList (host.take i) with
        | some zone =>
          match unescape (host.take zone) .encodeHost with
          | .error e => .error e
          | .ok host1 =>
            match unescape ((host.take i).drop zone) .encodeZone with
            | .error e => .error e
            | .ok host2 =>
              match unescape (host.drop i) .encodeHost with
              | .error e => .error e
              | .ok host3 => .ok (host1 ++ host2 ++ host3)
        | none => unescape host .encodeHost
  else
    match lastIndexByte ':' host with
    | some i =>
      let colonPort := host.drop i
      if !validOptionalPort colonPort then .error (.invalidPort (String.mk colonPort))
      else unescape host .encodeHost
    | none => unescape host .encodeHost

/-- The function `parseAuthority` of `net/url`. -/
def parseAuthority (authority : List Char) :
    Except RequestError (Option Userinfo × List Char) :=
  match lastIndexByte '@' authority with
  | none =>
    match parseHost authority with
    | .error e => .error e
    | .ok host => .ok (none, host)
  | some i =>
    match parseHost (authority.drop (i + 1)) with
    | .error e => .error e
    | .ok host =>
      let userinfo := authority.take i
      if !validUserinfo userinfo then .error .invalidUserinfo
      else if !userinfo.contains ':' then
        match unescape userinfo .encodeUserPassword with
        | .error e => .error e
        | .ok u => .ok (some ⟨String.mk u, "", false⟩, host)
      else
        match unescape (cut ':' userinfo).1 .encodeUserPassword with
        | .error e => .error e
        | .ok u =>
          match unescape (cut ':' userinfo).2.1 .encodeUserPassword with
          | .error e => .error e
          | .ok p => .ok (some ⟨String.mk u, String.mk p, true⟩, host)

/-- The method `URL.setPath`. -/
def URL.setPath (u : URL) (p : List Char) : Except RequestError URL :=
  match unescape p .encodePath with
  | .error e => .error e
  | .ok path =>
    .ok { u with Path := String.mk path,
                 RawPath := if p = escape .encodePath path then "" else String.mk p }

/-- The method `URL.setFragment`. -/
def URL.setFragment (u : URL) (f : List Char) : Except RequestError URL :=
  match unescape f .encodeFragment with
  | .error e => .error e
  | .ok frag =>
    .ok { u with Fragment := String.mk frag,
                 RawFragment := if f = escape .encodeFragment frag then "" else String.mk f }

/-- Tail of `parse` once scheme and query are split off: authority and path. -/
def parseRest (url : URL) (rest : List Char) : Except RequestError URL :=
  if (url.Scheme ≠ "" || !("///".toList.isPrefixOf rest)) && "//".toList.isPrefixOf rest then
    let authority := rest.drop 2
    match indexByte '/' authority with
    | some i =>
      match parseAuthority (authority.take i) with
      | .error e => .error e
      | .ok (user, host) =>
        URL.setPath { url with User := user, Host := String.mk host } (authority.drop i)
    | none =>
      match parseAuthority authority with
      | .error e => .error e
      | .ok (user, host) => URL.setPath { url with User := user, Host := String.mk host } []
  else if url.Scheme ≠ "" && rest.head? = some '/' then
    URL.setPath { url with OmitHost := true } rest
  else URL.setPath url rest

/-- The function `parse(rawURL, viaRequest = false)` of `net/url`. -/
def parse (rawURL : List Char) : Except RequestError URL :=
  if stringContainsCTLByte rawURL then .error .invalidControlCharacter
  else if rawURL = ['*'] then .ok { Path := "*" }
  else
    match getScheme rawURL with
    | .error e => .error e
    | .ok (scheme, rest0) =>
      let url : URL := { Scheme := String.mk (scheme.map Char.toLower) }
      let force : Bool := rest0.getLast? = some '?' && rest0.count '?' = 1
      let url : URL :=
        if force then { url with ForceQuery := true }
        else { url with RawQuery := String.mk (cut '?' rest0).2.1 }
      let rest : List Char := if force then rest0.dropLast else (cut '?' rest0).1
      if rest.head? ≠ some '/' then
        if url.Scheme ≠ "" then .ok { url with Opaque := String.mk rest }
        else if (cut '/' rest).1.contains ':' then .error .colonInFirstPathSegment
        else parseRest url rest
      else parseRest url rest

/-- The function `url.Parse`. -/
def Parse (rawURL : String) : Except RequestError URL :=
  let u := (cut '#' rawURL.toList).1
  let frag := (cut '#' rawURL.toList).2.1
  match parse u with
  | .error e => .error e
  | .ok url => if frag = [] then .ok url else URL.setFragment url frag

/-! ## net/http: requests, responses, the response writer -/

/-- The fields of `http.Request` that this program reads or sets. -/
structure Request where
  Method : String
  URL : URL
  Header : Header := []
  Body : Option Bytes := none
  Host : String := ""
  deriving DecidableEq, Repr

/-- A response body as `io.Copy` sees it: the non-final results of `Read`, in
order, then the final result, `io.EOF` (`none`) or a read error. -/
structure Body where
  chunks : List Bytes
  err : Option String := none
  deriving DecidableEq, Repr

/-- All bytes the body yields. -/
def Body.bytes (b : Body) : Bytes := b.chunks.flatten

/-- The fields of `http.Response` that this program reads. -/
structure Response where
  StatusCode : Int
  Header : Header
  Body : Body
  deriving DecidableEq, Repr

/-- The pair `(resp, err)` returned by `http.Client.Do`.  With a non-nil error
the response may still be set (a failed redirect check); without one it is set. -/
inductive DoResult
  | failed (err : String) (resp : Option Response)
  | ok (resp : Response)
  deriving DecidableEq, Repr

/-- The type `http.Client`: the configured timeout and the outcome of one call
of `Do`, which stands for the network and the upstream server (redirects that
`Do` follows and its timeout are inside that outcome). -/
structure Client where
  Timeout : Nat
  Do : Request → DoResult

/-- What a response writer has been asked to send, in order. -/
inductive Event
  /-- The header block: status code and the header map as it was then. -/
  | writeHeader (code : Int) (header : Header)
  /-- One `Write` call: the data offered and how many bytes of it were taken. -/
  | write (data : Bytes) (n : Nat)
  deriving DecidableEq, Repr

/-- The interface `http.ResponseWriter`, as a recorder.  `limit` is how many
body bytes the connection to the caller still takes (`none`: any number);
a `Write` beyond it is short and reports an error. -/
structure ResponseWriter where
  header : Header := []
  wroteHeader : Bool := false
  events : List Event := []
  limit : Option Nat := none
  deriving DecidableEq, Repr

namespace ResponseWriter

/-- The writer a server hands to a handler: nothing set, nothing sent. -/
def fresh (limit : Option Nat) : ResponseWriter := { limit := limit }

/-- The method `WriteHeader`: only the first call sends a header block; the
code is recorded as it is handed over. -/
def WriteHeader (w : ResponseWriter) (code : Int) : ResponseWriter :=
  if w.wroteHeader then w
  else { w with wroteHeader := true, events := w.events ++ [Event.writeHeader code w.header] }

/-- The method `Write`: sends the header block with status 200 first when none
was sent, then the data.  Returns the writer, the count taken and the error. -/
def Write (w : ResponseWriter) (data : Bytes) : ResponseWriter × Nat × Option String :=
  let w1 := if w.wroteHeader then w else w.WriteHeader 200
  match w1.limit with
  | none => ({ w1 with events := w1.events ++ [Event.write data data.length] }, data.length, none)
  | some k =>
    if data.length ≤ k then
      ({ w1 with events := w1.events ++ [Event.write data data.length],
                 limit := some (k - data.length) }, data.length, none)
    else
      ({ w1 with events := w1.events ++ [Event.write data k], limit := some 0 }, k,
        some "write: connection closed")

/-- Status code of the header block sent to the caller, if one was sent. -/
def status (w : ResponseWriter) : Option Int :=
  w.events.findSome? (fun e => match e with
    | .writeHeader code _ => some code
    | .write _ _ => none)

/-- Header map of the header block sent to the caller. -/
def sentHeader (w : ResponseWriter) : Header :=
  (w.events.findSome? (fun e => match e with
    | .writeHeader _ h => some h
    | .write _ _ => none)).getD []

/-- The body bytes handed to `Write`, in order. -/
def body (w : ResponseWriter) : Bytes :=
  (w.events.map (fun e => match e with
    | .writeHeader _ _ => []
    | .write data _ => data)).flatten

/-- The body bytes the caller's connection took, in order. -/
def delivered (w : ResponseWriter) : Bytes :=
  (w.events.map (fun e => match e with
    | .writeHeader _ _ => []
    | .write data n => data.take n)).flatten

end ResponseWriter

/-- The function `http.Error`. -/
def Error (w : ResponseWriter) (error : String) (code : Int) : ResponseWriter :=
  let h := w.header
  let h := h.Del "Content-Length"
  let h := h.Set "Content-Type" "text/plain; charset=utf-8"
  let h := h.Set "X-Content-Type-Options" "nosniff"
  let w := { w with header := h }
  let w := w.WriteHeader code
  (w.Write (bytesOf (error ++ "\n"))).1

/-- The function `validMethod` of `net/http`: a non-empty token. -/
def validMethod (method : String) : Bool :=
  decide (0 < method.length) && method.toList.all validHeaderFieldByte

/-- The function `hasPort` of `net/http`. -/
def hasPort (s : List Char) : Bool :=
  match lastIndexByte ':' s, lastIndexByte ']' s with
  | some i, some j => decide (j < i)
  | some _, none => true
  | none, _ => false

/-- The function `removeEmptyPort` of `net/http`. -/
def removeEmptyPort (host : String) : String :=
  if hasPort host.toList && host.toList.getLast? = some ':' then String.mk host.toList.dropLast
  else host

/-- The function `http.NewRequest`. -/
def NewRequest (method url : String) (body : Option Bytes) : Except RequestError Request :=
  let method := if method = "" then "GET" else method
  if !validMethod method then .error (.invalidMethod method)
  else
    match Parse url with
    | .error e => .error e
    | .ok u =>
      let u := { u with Host := removeEmptyPort u.Host }
      .ok { Method := method, URL := u, Header := [], Body := body, Host := u.Host }

/-- The loop of `io.Copy(dst, src)` over the reads of `src`; `written` counts
the bytes taken so far. -/
def copyLoop (w : ResponseWriter) : List Bytes → Option String → Nat →
    ResponseWriter × Nat × Option String
  | [], rerr, written => (w, written, rerr)
  | chunk :: rest, rerr, written =>
    if chunk.length = 0 then copyLoop w rest rerr written
    else
      match w.Write chunk with
      | (w1, nw, some ew) => (w1, written + nw, some ew)
      | (w1, nw, none) =>
        if chunk.length ≠ nw then (w1, written + nw, some "short write")
        else copyLoop w1 rest rerr (written + nw)

/-- The function `io.Copy` from a response body into the response writer. -/
def Copy (w : ResponseWriter) (src : Body) : ResponseWriter × Nat × Option String :=
  copyLoop w src.chunks src.err 0

/-! ## main.go -/

def ossBaseURL : String := "https://jasonzyt-gallery.oss-cn-hongkong-internal.aliyuncs.com"

def serverPort : String := ":8000"

/-- The constant `requestTimeout`, in seconds. -/
def requestTimeout : Nat := 30

/-- The struct `OSSProxy`. -/
structure OSSProxy where
  client : Client

/-- The constructor `NewOSSProxy`; `transport` is what the network answers. -/
def NewOSSProxy (transport : Request → DoResult) : OSSProxy :=
  { client := { Timeout := requestTimeout, Do := transport } }

/-- The lines this program hands to `log.Printf`. -/
inductive LogLine
  | proxying (path ossURL : String)
  | createFailed (err : RequestError)
  | fetchFailed (err : String)
  | copyFailed (err : String)
  | proxied (path : String) (bytesWritten : Nat) (statusCode : Int)
  deriving DecidableEq, Repr

/-- Everything one run of a handler does: what it sent to the caller, the
requests it handed to `client.Do`, and what it logged. -/
structure Outcome where
  w : ResponseWriter
  outbound : List Request := []
  logs : List LogLine := []
  deriving DecidableEq, Repr

/-- The local `copyHeaders` of `ServeHTTP`. -/
def copyHeaders : List String :=
  ["User-Agent", "Accept", "Accept-Encoding", "Accept-Language"]

/-- The first loop of `ServeHTTP`: copy the listed request headers. -/
def copyRequestHeaders (r ossReq : Request) : List String → Request
  | [] => ossReq
  | header :: rest =>
    let value := r.Header.Get header
    if value ≠ "" then
      copyRequestHeaders r { ossReq with Header := ossReq.Header.Set header value } rest
    else copyRequestHeaders r ossReq rest

/-- The inner loop over the values of one response header key. -/
def addValues (h : Header) (key : String) : List String → Header
  | [] => h
  | value :: rest => addValues (h.Add key value) key rest

/-- The second loop of `ServeHTTP`: copy the response headers.  The list order
of `src` is the order in which `range` visits the map. -/
def copyResponseHeaders (h : Header) : Header → Header
  | [] => h
  | (key, values) :: rest => copyResponseHeaders (addValues h key values) rest

/-- The method `OSSProxy.ServeHTTP`. -/
def OSSProxy.ServeHTTP (p : OSSProxy) (w : ResponseWriter) (r : Request) : Outcome :=
  if r.Method ≠ "GET" then
    { w := Error w "Method not allowed" 405 }
  else
    let path := r.URL.Path
    let ossURL := ossBaseURL ++ path
    let log1 := LogLine.proxying r.URL.Path ossURL
    match NewRequest "GET" ossURL none with
    | .error err =>
      { w := Error w "Internal server error" 500, logs := [log1, .createFailed err] }
    | .ok ossReq0 =>
      let ossReq := copyRequestHeaders r ossReq0 copyHeaders
      match p.client.Do ossReq with
      | .failed err _ =>
        { w := Error w "Failed to fetch from OSS" 502, outbound := [ossReq],
          logs := [log1, .fetchFailed err] }
      | .ok resp =>
        let w1 := { w with header := copyResponseHeaders w.header resp.Header }
        let w2 := w1.WriteHeader resp.StatusCode
        match Copy w2 resp.Body with
        | (w3, _, some err) =>
          { w := w3, outbound := [ossReq], logs := [log1, .copyFailed err] }
        | (w3, bytesWritten, none) =>
          { w := w3, outbound := [ossReq],
            logs := [log1, .proxied path bytesWritten resp.StatusCode] }

/-! ## time: the RFC 3339 layout -/

/-- A `time.Time` as `Format` reads it: the civil date and clock in the time's
location and the zone offset in seconds east of UTC. -/
structure Time where
  year : Int
  month : Nat
  day : Nat
  hour : Nat
  minute : Nat
  second : Nat
  offset : Int
  deriving DecidableEq, Repr

/-- The decimal digit for `n % 10`. -/
def digitChar (n : Nat) : Char := Char.ofNat ('0'.toNat + n % 10)

/-- The decimal digits of `n`, most significant first; `fuel` bounds the count. -/
def decimal : Nat → Nat → List Char
  | 0, _ => []
  | fuel + 1, n =>
    if n < 10 then [digitChar n] else decimal fuel (n / 10) ++ [digitChar n]

/-- The function `appendInt` of package `time`: a minus sign for a negative
`x`, then the decimal form of `|x|` padded with zeros to `width` digits. -/
def appendInt (b : List Char) (x : Int) (width : Nat) : List Char :=
  let digits := decimal (x.natAbs + 1) x.natAbs
  b ++ (if x < 0 then ['-'] else []) ++ List.replicate (width - digits.length) '0' ++ digits

/-- The method `Time.appendFormatRFC3339` without nanoseconds, which is what
`Format(time.RFC3339)` produces. -/
def Time.appendFormatRFC3339 (t : Time) (b : List Char) : List Char :=
  let b := appendInt b t.year 4
  let b := b ++ ['-']
  let b := appendInt b t.month 2
  let b := b ++ ['-']
  let b := appendInt b t.day 2
  let b := b ++ ['T']
  let b := appendInt b t.hour 2
  let b := b ++ [':']
  let b := appendInt b t.minute 2
  let b := b ++ [':']
  let b := appendInt b t.second 2
  if t.offset = 0 then b ++ ['Z']
  else
    let zone : Int := Int.tdiv t.offset 60
    let b := if zone < 0 then b ++ ['-'] else b ++ ['+']
    let zone : Int := if zone < 0 then -zone else zone
    let b := appendInt b (Int.tdiv zone 60) 2
    let b := b ++ [':']
    appendInt b (Int.tmod zone 60) 2

/-- The call `t.Format(time.RFC3339)`. -/
def Time.Format (t : Time) : String := String.mk (t.appendFormatRFC3339 [])

/-- The handler `healthCheck`; `now` is what `time.Now()` returns. -/
def healthCheck (now : Time) (w : ResponseWriter) (_r : Request) : Outcome :=
  let w := { w with header := w.header.Set "Content-Type" "application/json" }
  let w := w.WriteHeader 200
  { w := (w.Write (bytesOf
      ("\x7b\"status\": \"ok\", \"timestamp\": \"" ++ now.Format ++ "\"\x7d"))).1 }

/-! ## What the liveness claim speaks of: civil times, RFC 3339, JSON -/

def isLeapYear (y : Nat) : Bool := (y % 4 == 0 && !(y % 100 == 0)) || y % 400 == 0

def daysIn (y m : Nat) : Nat :=
  if m = 2 then (if isLeapYear y then 29 else 28)
  else if m = 4 || m = 6 || m = 9 || m = 11 then 30
  else 31

/-- A civil time as a system clock yields it: a calendar date of the years 0 to
9999, a clock time, and a zone less than a day from UTC. -/
def Time.valid (t : Time) : Prop :=
  0 ≤ t.year ∧ t.year ≤ 9999 ∧ 1 ≤ t.month ∧ t.month ≤ 12 ∧
  1 ≤ t.day ∧ t.day ≤ daysIn t.year.toNat t.month ∧
  t.hour ≤ 23 ∧ t.minute ≤ 59 ∧ t.second ≤ 59 ∧
  -86400 < t.offset ∧ t.offset < 86400

instance (t : Time) : Decidable t.valid := by
  unfold Time.valid
  infer_instance

/-- The number a list of decimal digits denotes; `none` when a character is
not a digit. -/
def digitsValue (cs : List Char) : Option Nat :=
  cs.foldl (fun acc c =>
    match acc with
    | some v => if isDigit09 c then some (v * 10 + (c.toNat - '0'.toNat)) else none
    | none => none) (some 0)

/-- The `time-offset` of RFC 3339: `Z`, or a sign, two-digit hours up to 23, a
colon, two-digit minutes up to 59. -/
def isRFC3339Offset : List Char → Bool
  | ['Z'] => true
  | [sg, h1, h2, c, m1, m2] =>
    (sg == '+' || sg == '-') && c == ':' &&
    (match digitsValue [h1, h2], digitsValue [m1, m2] with
      | some h, some m => decide (h ≤ 23) && decide (m ≤ 59)
      | _, _ => false)
  | _ => false

/-- A `date-time` of RFC 3339 without fraction: `full-date`, `T`, `partial-time`,
`time-offset`, with the field ranges of section 5.7 of the RFC. -/
def isRFC3339 (s : List Char) : Bool :=
  match s with
  | y1 :: y2 :: y3 :: y4 :: d1 :: mo1 :: mo2 :: d2 :: dd1 :: dd2 :: tt :: h1 :: h2 :: c1 ::
      mi1 :: mi2 :: c2 :: s1 :: s2 :: rest =>
    d1 == '-' && d2 == '-' && tt == 'T' && c1 == ':' && c2 == ':' &&
    (match digitsValue [y1, y2, y3, y4], digitsValue [mo1, mo2], digitsValue [dd1, dd2],
        digitsValue [h1, h2], digitsValue [mi1, mi2], digitsValue [s1, s2] with
      | some y, some mo, some dd, some h, some mi, some sec =>
        decide (1 ≤ mo) && decide (mo ≤ 12) && decide (1 ≤ dd) && decide (dd ≤ daysIn y mo) &&
        decide (h ≤ 23) && decide (mi ≤ 59) && decide (sec ≤ 60)
      | _, _, _, _, _, _ => false) &&
    isRFC3339Offset rest
  | _ => false

def isJSONSpace (c : Char) : Bool := c == ' ' || c == '\t' || c == '\n' || c == '\r'

def skipSpace (s : List Char) : List Char := s.dropWhile isJSONSpace

/-- The rest of a JSON string after its opening quote, for strings written
without escapes: the characters up to the closing quote, and what follows. -/
def jsonStringBody : List Char → Option (List Char × List Char)
  | [] => none
  | c :: cs =>
    if c = '"' then some ([], cs)
    else if c = '\\' || decide (c.toNat < 0x20) then none
    else
      match jsonStringBody cs with
      | some (str, rest) => some (c :: str, rest)
      | none => none

/-- One member `"name": "value"` of a JSON object, spaces allowed. -/
def jsonMember (s : List Char) : Option ((String × String) × List Char) :=
  match skipSpace s with
  | '"' :: s1 =>
    match jsonStringBody s1 with
    | some (name, s2) =>
      match skipSpace s2 with
      | ':' :: s3 =>
        match skipSpace s3 with
        | '"' :: s4 =>
          match jsonStringBody s4 with
          | some (value, s5) => some ((String.mk name, String.mk value), skipSpace s5)
          | none => none
        | _ => none
      | _ => none
    | none => none
  | _ => none

/-- The members of a JSON object after its opening brace, up to the closing
brace, which must end the text (spaces aside). -/
def jsonMembers : Nat → List Char → Option (List (String × String))
  | 0, _ => none
  | fuel + 1, s =>
    match jsonMember s with
    | some (kv, ',' :: rest) => (jsonMembers fuel rest).map (fun kvs => kv :: kvs)
    | some (kv, '}' :: rest) => if skipSpace rest = [] then some [kv] else none
    | _ => none

/-- A reader for the JSON objects all of whose values are strings without
escapes: the members in order, `none` when the text is not such an object. -/
def parseJSONObject (s : List Char) : Option (List (String × String)) :=
  match skipSpace s with
  | '{' :: s1 =>
    match skipSpace s1 with
    | '}' :: rest => if skipSpace rest = [] then some [] else none
    | _ => jsonMembers s.length s1
  | _ => none

/-! ## Definitions used to state the claims -/

/-- The header block `http.Error` sends from a writer whose header map is empty. -/
def errorHeader : Header :=
  [("Content-Type", ["text/plain; charset=utf-8"]), ("X-Content-Type-Options", ["nosniff"])]

/-- The connection takes `n` more bytes. -/
def takes (limit : Option Nat) (n : Nat) : Prop := ∀ k, limit = some k → n ≤ k

/-- An upstream that answers every request with `resp`. -/
def answering (resp : Response) : OSSProxy := NewOSSProxy (fun _ => DoResult.ok resp)

/-- An upstream that cannot be reached. -/
def unreachable : OSSProxy := NewOSSProxy (fun _ => DoResult.failed "dial tcp: i/o timeout" none)

/-- A `GET` for `path` with the given headers. -/
def getRequest (path : String) (header : Header) : Request :=
  { Method := "GET", URL := { Path := path }, Header := header }

/-- A 404 answer with a multi-valued header and a body read in two parts. -/
def notFound : Response :=
  { StatusCode := 404,
    Header := [("Set-Cookie", ["a=1", "b=2"]), ("Content-Type", ["application/xml"])],
    Body := { chunks := [[60, 63], [120]] } }

/-- A browser request: two `Accept` lines, the first one empty, and a cookie. -/
def browserRequest : Request :=
  { Method := "GET", URL := { Path := "/img/a.png", RawQuery := "token=1" },
    Header := [("Accept", ["", "text/html"]), ("User-Agent", ["curl/8.0"]),
               ("Cookie", ["sid=1"])],
    Host := "proxy.example" }

/-- The same path and first header values as `browserRequest`; query, body,
host, cookie, authorization and the second `Accept` value differ. -/
def otherRequest : Request :=
  { Method := "GET", URL := { Path := "/img/a.png", RawQuery := "token=2&x=y" },
    Header := [("User-Agent", ["curl/8.0", "second"]), ("Accept", ["", "image/png"]),
               ("Authorization", ["Bearer t"]), ("If-None-Match", ["abc"])],
    Body := some [1, 2, 3],
    Host := "other.example" }

/-- The host part of `ossBaseURL`. -/
def ossHost : String := "jasonzyt-gallery.oss-cn-hongkong-internal.aliyuncs.com"

/-- A path that begins with a slash and holds no `?`, `#`, `%` and no control
character. -/
def plainPath (path : String) : Bool :=
  path.toList.head? = some '/' &&
  path.toList.all (fun c => !(c == '?') && !(c == '#') && !(c == '%') &&
    !(decide (c.toNat < 0x20) || decide (c.toNat = 0x7f)))

/-- The characters `Format` can produce. -/
def isStampChar (c : Char) : Bool :=
  isDigit09 c || c == '-' || c == 'T' || c == ':' || c == 'Z' || c == '+'

/-- The zone suffix `Format` writes for an offset of `offset` seconds. -/
def zoneSuffix (offset : Int) : List Char :=
  if offset = 0 then ['Z']
  else
    (if Int.tdiv offset 60 < 0 then ['-'] else ['+']) ++
      [digitChar ((Int.tdiv offset 60).natAbs / 60 / 10), digitChar ((Int.tdiv offset 60).natAbs / 60),
       ':',
       digitChar ((Int.tdiv offset 60).natAbs % 60 / 10), digitChar ((Int.tdiv offset 60).natAbs % 60)]

/-- The first of November 2026, 09:05:00, eight hours east of UTC. -/
def sampleTime : Time :=
  { year := 2026, month := 11, day := 1, hour := 9, minute := 5, second := 0, offset := 28800 }

/-- The request `http.NewRequest` builds for `ossBaseURL` followed by a plain path. -/
def plainOutbound (path : String) : Request :=
  { Method := "GET", URL := { Scheme := "https", Host := ossHost, Path := path },
    Host := ossHost }

/-! # Theorems -/

/-! ## Helper lemmas: canonical keys and the error response -/

theorem canonical_contentLength : CanonicalMIMEHeaderKey "Content-Length" = "Content-Length" := by
  decide

theorem canonical_contentType : CanonicalMIMEHeaderKey "Content-Type" = "Content-Type" := by
  decide

theorem canonical_nosniff :
    CanonicalMIMEHeaderKey "X-Content-Type-Options" = "X-Content-Type-Options" := by
  decide

theorem Error_fresh_events (l : Option Nat) (msg : String) (code : Int) :
    ∃ n, (Error (ResponseWriter.fresh l) msg code).events =
      [Event.writeHeader code errorHeader, Event.write (bytesOf (msg ++ "\n")) n] := by
  cases l with
  | none =>
    exact ⟨(bytesOf (msg ++ "\n")).length, by
      simp [Error, ResponseWriter.fresh, ResponseWriter.WriteHeader, ResponseWriter.Write,
        Header.Del, Header.Set, Header.delete, Header.assign, canonical_contentLength,
        canonical_contentType, canonical_nosniff, errorHeader]⟩
  | some k =>
    by_cases hk : (bytesOf (msg ++ "\n")).length ≤ k
    · exact ⟨(bytesOf (msg ++ "\n")).length, by
        simp [Error, ResponseWriter.fresh, ResponseWriter.WriteHeader, ResponseWriter.Write,
          Header.Del, Header.Set, Header.delete, Header.assign, canonical_contentLength,
          canonical_contentType, canonical_nosniff, errorHeader, hk]⟩
    · exact ⟨k, by
        simp [Error, ResponseWriter.fresh, ResponseWriter.WriteHeader, ResponseWriter.Write,
          Header.Del, Header.Set, Header.delete, Header.assign, canonical_contentLength,
          canonical_contentType, canonical_nosniff, errorHeader, hk]⟩

theorem Error_fresh_status (l : Option Nat) (msg : String) (code : Int) :
    (Error (ResponseWriter.fresh l) msg code).status = some code := by
  obtain ⟨n, h⟩ := Error_fresh_events l msg code
  simp [ResponseWriter.status, h]

theorem Error_fresh_body (l : Option Nat) (msg : String) (code : Int) :
    (Error (ResponseWriter.fresh l) msg code).body = bytesOf (msg ++ "\n") := by
  obtain ⟨n, h⟩ := Error_fresh_events l msg code
  simp [ResponseWriter.body, h]

theorem Error_fresh_sentHeader (l : Option Nat) (msg : String) (code : Int) :
    (Error (ResponseWriter.fresh l) msg code).sentHeader = errorHeader := by
  obtain ⟨n, h⟩ := Error_fresh_events l msg code
  simp [ResponseWriter.sentHeader, h]

/-! ## Helper lemmas: `Write` and `io.Copy` on a writer whose header is sent -/

theorem Write_spec (w : ResponseWriter) (d : Bytes) (hw : w.wroteHeader = true) :
    (w.Write d).1.events = w.events ++ [Event.write d (w.Write d).2.1] ∧
    (w.Write d).1.header = w.header ∧
    (w.Write d).1.wroteHeader = true ∧
    (w.Write d).2.1 ≤ d.length ∧
    ((w.Write d).2.2 = none → (w.Write d).2.1 = d.length) := by
  unfold ResponseWriter.Write
  simp only [hw, if_true]
  cases hl : w.limit with
  | none => simp [hw]
  | some k =>
    by_cases hk : d.length ≤ k
    · simp [hk, hw]
    · simp [hk, hw]; omega

theorem Write_takes (w : ResponseWriter) (d : Bytes) (m : Nat) (hw : w.wroteHeader = true)
    (ht : takes w.limit (d.length + m)) :
    (w.Write d).2.1 = d.length ∧ (w.Write d).2.2 = none ∧ takes (w.Write d).1.limit m := by
  unfold ResponseWriter.Write
  simp only [hw, if_true]
  cases hl : w.limit with
  | none => simp [takes]
  | some k =>
    have hk : d.length + m ≤ k := ht k hl
    have hk1 : d.length ≤ k := by omega
    simp [hk1, takes]; omega

theorem Write_body (w : ResponseWriter) (d : Bytes) (hw : w.wroteHeader = true) :
    (w.Write d).1.body = w.body ++ d ∧
    (w.Write d).1.delivered = w.delivered ++ d.take (w.Write d).2.1 := by
  have h := (Write_spec w d hw).1
  simp [ResponseWriter.body, ResponseWriter.delivered, h]

/-- What `io.Copy` leaves unchanged, and that it only appends `Write` events. -/
theorem copyLoop_frame (cs : List Bytes) (w : ResponseWriter) (e : Option String) (n : Nat)
    (hw : w.wroteHeader = true) :
    (copyLoop w cs e n).1.header = w.header ∧
    w.events <+: (copyLoop w cs e n).1.events ∧
    (∃ x, x <+: cs.flatten ∧ (copyLoop w cs e n).1.body = w.body ++ x) ∧
    (∃ y, y <+: cs.flatten ∧ (copyLoop w cs e n).1.delivered = w.delivered ++ y) := by
  induction cs generalizing w n with
  | nil => simp [copyLoop]
  | cons c cs ih =>
    unfold copyLoop
    by_cases hc : c.length = 0
    · have hc0 : c = [] := List.length_eq_zero.mp hc
      simp only [hc, if_true]
      simpa [hc0] using ih w n hw
    · simp only [hc, if_false]
      obtain ⟨hev, hhd, hwh, hle, hfull⟩ := Write_spec w c hw
      obtain ⟨hb, hd⟩ := Write_body w c hw
      rcases hres : w.Write c with ⟨w1, nw, ew⟩
      rw [hres] at hev hhd hwh hle hfull hb hd
      simp only at hev hhd hwh hle hfull hb hd
      cases ew with
      | some err =>
        simp only
        refine ⟨hhd, ?_, ⟨c, ?_, hb⟩, ⟨c.take nw, ?_, hd⟩⟩
        · rw [hev]; exact List.prefix_append _ _
        · simp
        · simp only [List.flatten_cons]
          exact (List.take_prefix nw c).trans (List.prefix_append _ _)
      | none =>
        have hnw : nw = c.length := hfull rfl
        simp only [hnw, ne_eq, not_true_eq_false, if_false]
        obtain ⟨ih1, ih2, ⟨x, hx, ih3⟩, ⟨y, hy, ih4⟩⟩ := ih w1 (n + c.length) hwh
        refine ⟨ih1.trans hhd, ?_, ⟨c ++ x, ?_, ?_⟩, ⟨c ++ y, ?_, ?_⟩⟩
        · exact (hev ▸ List.prefix_append _ _ : w.events <+: w1.events).trans ih2
        · simpa using (List.prefix_append_right_inj c).mpr hx
        · rw [ih3, hb, List.append_assoc]
        · simpa using (List.prefix_append_right_inj c).mpr hy
        · rw [ih4, hd, hnw, List.take_length, List.append_assoc]

/-- When the connection takes every byte of the body, `io.Copy` writes all of
it and reports the body's own final read result. -/
theorem copyLoop_complete (cs : List Bytes) (w : ResponseWriter) (e : Option String) (n : Nat)
    (hw : w.wroteHeader = true) (ht : takes w.limit cs.flatten.length) :
    (copyLoop w cs e n).1.body = w.body ++ cs.flatten ∧
    (copyLoop w cs e n).1.delivered = w.delivered ++ cs.flatten ∧
    (copyLoop w cs e n).2.1 = n + cs.flatten.length ∧
    (copyLoop w cs e n).2.2 = e := by
  induction cs generalizing w n with
  | nil => simp [copyLoop]
  | cons c cs ih =>
    unfold copyLoop
    by_cases hc : c.length = 0
    · have hc0 : c = [] := List.length_eq_zero.mp hc
      simp only [hc, if_true]
      have ht1 : takes w.limit cs.flatten.length := by simpa [hc0] using ht
      simpa [hc0] using ih w n hw ht1
    · simp only [hc, if_false]
      have ht1 : takes w.limit (c.length + cs.flatten.length) := by simpa using ht
      obtain ⟨h1, h2, h3⟩ := Write_takes w c _ hw ht1
      obtain ⟨hev, hhd, hwh, hle, hfull⟩ := Write_spec w c hw
      obtain ⟨hb, hd⟩ := Write_body w c hw
      rcases hres : w.Write c with ⟨w1, nw, ew⟩
      rw [hres] at h1 h2 h3 hwh hb hd
      simp only at h1 h2 h3 hwh hb hd
      subst h1 h2
      simp only [ne_eq, not_true_eq_false, if_false]
      obtain ⟨i1, i2, i3, i4⟩ := ih w1 (n + c.length) hwh h3
      refine ⟨?_, ?_, ?_, i4⟩
      · rw [i1, hb]; simp
      · rw [i2, hd]; simp
      · rw [i3]; simp; omega

/-! ## Helper lemmas: the header map -/

theorem values_assign (h : Header) (k k2 : String) (vs : List String) :
    (h.assign k vs).values k2 = if k = k2 then vs else h.values k2 := by
  induction h with
  | nil => simp [Header.assign, Header.values]
  | cons kv rest ih =>
    obtain ⟨a, ws⟩ := kv
    by_cases ha : a = k
    · subst ha
      by_cases hk : a = k2 <;> simp [Header.assign, Header.values, hk]
    · by_cases hk : k = k2
      · subst hk
        simp [Header.assign, Header.values, ha, ih]
      · by_cases ha2 : a = k2
        · subst ha2
          simp [Header.assign, Header.values, ha, hk]
        · simp [Header.assign, Header.values, ha, ha2, hk, ih]

theorem keys_assign (h : Header) (k : String) (vs : List String) (x : String)
    (hx : x ∈ (h.assign k vs).keys) : x = k ∨ x ∈ h.keys := by
  induction h with
  | nil => simpa [Header.assign, Header.keys] using hx
  | cons kv rest ih =>
    obtain ⟨a, ws⟩ := kv
    by_cases ha : a = k
    · subst ha
      simp [Header.assign, Header.keys] at hx ⊢
      tauto
    · simp [Header.assign, Header.keys, ha] at hx ⊢
      rcases hx with hx | hx
      · exact Or.inr (Or.inl hx)
      · have := ih (by simpa [Header.keys] using hx)
        simp [Header.keys] at this
        tauto

theorem values_of_not_mem_keys (h : Header) (k : String) (hk : k ∉ h.keys) :
    h.values k = [] := by
  induction h with
  | nil => rfl
  | cons kv rest ih =>
    obtain ⟨a, ws⟩ := kv
    simp [Header.keys] at hk
    have ha : ¬ a = k := fun e => hk.1 e.symm
    simp only [Header.values, ha, if_false]
    exact ih (by simpa [Header.keys] using hk.2)

theorem values_addValues (vs : List String) (h : Header) (k k2 : String)
    (hk : CanonicalMIMEHeaderKey k = k) :
    (addValues h k vs).values k2 = if k = k2 then h.values k ++ vs else h.values k2 := by
  induction vs generalizing h with
  | nil => by_cases e : k = k2 <;> simp [addValues, e]
  | cons v vs ih =>
    rw [addValues, ih]
    by_cases e : k = k2
    · subst e
      simp [Header.Add, hk, values_assign]
    · simp [e, Header.Add, hk, values_assign]

theorem keys_addValues (vs : List String) (h : Header) (k x : String)
    (hk : CanonicalMIMEHeaderKey k = k) (hx : x ∈ (addValues h k vs).keys) :
    x = k ∨ x ∈ h.keys := by
  induction vs generalizing h with
  | nil => exact Or.inr hx
  | cons v vs ih =>
    rw [addValues] at hx
    rcases ih _ hx with e | hmem
    · exact Or.inl e
    · simp only [Header.Add, hk] at hmem
      exact keys_assign _ _ _ _ hmem

/-- Copying a header map whose keys are distinct and canonical appends, under
every key, the source's values to the target's. -/
theorem values_copyResponseHeaders (src h : Header) (k2 : String)
    (hnodup : src.keys.Nodup) (hcanon : ∀ k ∈ src.keys, CanonicalMIMEHeaderKey k = k) :
    (copyResponseHeaders h src).values k2 = h.values k2 ++ src.values k2 := by
  induction src generalizing h with
  | nil => simp [copyResponseHeaders, Header.values]
  | cons kv rest ih =>
    obtain ⟨a, ws⟩ := kv
    simp only [Header.keys, List.map_cons, List.nodup_cons] at hnodup
    have hca : CanonicalMIMEHeaderKey a = a := hcanon a (by simp [Header.keys])
    have hrest : ∀ k ∈ Header.keys rest, CanonicalMIMEHeaderKey k = k :=
      fun k hk => hcanon k (by simp [Header.keys] at hk ⊢; exact Or.inr hk)
    rw [copyResponseHeaders, ih _ hnodup.2 hrest, values_addValues _ _ _ _ hca]
    by_cases e : a = k2
    · subst e
      have : Header.values rest a = [] := values_of_not_mem_keys rest a hnodup.1
      simp [Header.values, this]
    · simp [Header.values, e]

theorem keys_copyResponseHeaders (src h : Header) (x : String)
    (hcanon : ∀ k ∈ src.keys, CanonicalMIMEHeaderKey k = k)
    (hx : x ∈ (copyResponseHeaders h src).keys) : x ∈ h.keys ∨ x ∈ src.keys := by
  induction src generalizing h with
  | nil => exact Or.inl hx
  | cons kv rest ih =>
    obtain ⟨a, ws⟩ := kv
    have hca : CanonicalMIMEHeaderKey a = a := hcanon a (by simp [Header.keys])
    have hrest : ∀ k ∈ Header.keys rest, CanonicalMIMEHeaderKey k = k :=
      fun k hk => hcanon k (by simp [Header.keys] at hk ⊢; exact Or.inr hk)
    rw [copyResponseHeaders] at hx
    rcases ih _ hrest hx with h1 | h1
    · rcases keys_addValues _ _ _ _ hca h1 with e | h2
      · exact Or.inr (by simp [Header.keys, e])
      · exact Or.inl h2
    · exact Or.inr (by simp [Header.keys] at h1 ⊢; exact Or.inr h1)

/-! ## Helper lemmas: the branches of `ServeHTTP` -/

theorem ServeHTTP_createFailed (p : OSSProxy) (w : ResponseWriter) (r : Request)
    (e : RequestError) (hm : r.Method = "GET")
    (hq : NewRequest "GET" (ossBaseURL ++ r.URL.Path) none = .error e) :
    p.ServeHTTP w r = { w := Error w "Internal server error" 500,
                        logs := [.proxying r.URL.Path (ossBaseURL ++ r.URL.Path), .createFailed e] } := by
  simp [OSSProxy.ServeHTTP, hm, hq]

theorem ServeHTTP_fetchFailed (p : OSSProxy) (w : ResponseWriter) (r q0 : Request)
    (err : String) (ro : Option Response) (hm : r.Method = "GET")
    (hq : NewRequest "GET" (ossBaseURL ++ r.URL.Path) none = .ok q0)
    (hdo : p.client.Do (copyRequestHeaders r q0 copyHeaders) = .failed err ro) :
    p.ServeHTTP w r = { w := Error w "Failed to fetch from OSS" 502,
                        outbound := [copyRequestHeaders r q0 copyHeaders],
                        logs := [.proxying r.URL.Path (ossBaseURL ++ r.URL.Path), .fetchFailed err] } := by
  simp [OSSProxy.ServeHTTP, hm, hq, hdo]

theorem ServeHTTP_fetched (p : OSSProxy) (w : ResponseWriter) (r q0 : Request)
    (resp : Response) (hm : r.Method = "GET")
    (hq : NewRequest "GET" (ossBaseURL ++ r.URL.Path) none = .ok q0)
    (hdo : p.client.Do (copyRequestHeaders r q0 copyHeaders) = .ok resp) :
    (p.ServeHTTP w r).w =
      (Copy (ResponseWriter.WriteHeader
        { w with header := copyResponseHeaders w.header resp.Header } resp.StatusCode) resp.Body).1 ∧
    (p.ServeHTTP w r).outbound = [copyRequestHeaders r q0 copyHeaders] := by
  simp only [OSSProxy.ServeHTTP, hm, hq, hdo, ne_eq, not_true_eq_false, if_false]
  split <;> simp_all

/-- The outbound request exists exactly on the `GET` branch past `NewRequest`. -/
theorem ServeHTTP_outbound (p : OSSProxy) (w : ResponseWriter) (r : Request) :
    (p.ServeHTTP w r).outbound =
      if r.Method ≠ "GET" then []
      else match NewRequest "GET" (ossBaseURL ++ r.URL.Path) none with
        | .error _ => []
        | .ok q0 => [copyRequestHeaders r q0 copyHeaders] := by
  by_cases hm : r.Method = "GET"
  · cases hq : NewRequest "GET" (ossBaseURL ++ r.URL.Path) none with
    | error e => simp [ServeHTTP_createFailed p w r e hm hq, hm]
    | ok q0 =>
      cases hdo : p.client.Do (copyRequestHeaders r q0 copyHeaders) with
      | failed err ro => simp [ServeHTTP_fetchFailed p w r q0 err ro hm hq hdo, hm]
      | ok resp => simp [(ServeHTTP_fetched p w r q0 resp hm hq hdo).2, hm]
  · simp [OSSProxy.ServeHTTP, hm]

/-- The writer right after the status line of a fetched response is sent. -/
theorem fetched_writer (l : Option Nat) (resp : Response) :
    (ResponseWriter.WriteHeader
      { ResponseWriter.fresh l with
        header := copyResponseHeaders (ResponseWriter.fresh l).header resp.Header }
      resp.StatusCode) =
    { header := copyResponseHeaders [] resp.Header, wroteHeader := true,
      events := [Event.writeHeader resp.StatusCode (copyResponseHeaders [] resp.Header)],
      limit := l } := by
  simp [ResponseWriter.WriteHeader, ResponseWriter.fresh]

/-! ## Helper lemmas: the outbound request -/

theorem canonical_copyHeaders : ∀ H ∈ copyHeaders, CanonicalMIMEHeaderKey H = H := by
  decide

theorem Get_eq_headD (h : Header) (H : String) (hH : CanonicalMIMEHeaderKey H = H) :
    h.Get H = (h.values H).headD "" := by
  unfold Header.Get
  rw [hH]
  cases h.values H <;> rfl

theorem copyRequestHeaders_frame (r : Request) (hs : List String) (q : Request) :
    (copyRequestHeaders r q hs).Method = q.Method ∧
    (copyRequestHeaders r q hs).URL = q.URL ∧
    (copyRequestHeaders r q hs).Body = q.Body ∧
    (copyRequestHeaders r q hs).Host = q.Host := by
  induction hs generalizing q with
  | nil => simp [copyRequestHeaders]
  | cons H hs ih =>
    unfold copyRequestHeaders
    by_cases hv : r.Header.Get H = ""
    · simpa [hv] using ih q
    · simpa [hv] using ih { q with Header := q.Header.Set H (r.Header.Get H) }

theorem copyRequestHeaders_congr (r1 r2 : Request) (hs : List String) (q : Request)
    (hget : ∀ H ∈ hs, r1.Header.Get H = r2.Header.Get H) :
    copyRequestHeaders r1 q hs = copyRequestHeaders r2 q hs := by
  induction hs generalizing q with
  | nil => rfl
  | cons H hs ih =>
    have h1 : r1.Header.Get H = r2.Header.Get H := hget H (by simp)
    have h2 : ∀ H ∈ hs, r1.Header.Get H = r2.Header.Get H :=
      fun K hK => hget K (by simp [hK])
    unfold copyRequestHeaders
    simp only [h1]
    by_cases hv : r2.Header.Get H = ""
    · simpa [hv] using ih q h2
    · simpa [hv] using ih _ h2

theorem NewRequest_ok (url : String) (q0 : Request)
    (hq : NewRequest "GET" url none = .ok q0) :
    ∃ u, Parse url = .ok u ∧
      q0 = { Method := "GET", URL := { u with Host := removeEmptyPort u.Host }, Header := [],
             Body := none, Host := removeEmptyPort u.Host } := by
  have hv : validMethod "GET" = true := by decide
  cases hp : Parse url with
  | error e => simp [NewRequest, hv, hp] at hq
  | ok u =>
    refine ⟨u, rfl, ?_⟩
    simp [NewRequest, hv, hp] at hq
    exact hq.symm

/-- The header map the first loop of `ServeHTTP` builds from an empty one. -/
theorem copyRequestHeaders_values (r q0 : Request) (h0 : q0.Header = []) :
    (∀ H ∈ copyHeaders, (copyRequestHeaders r q0 copyHeaders).Header.values H =
      if r.Header.Get H = "" then [] else [r.Header.Get H]) ∧
    (∀ k ∈ (copyRequestHeaders r q0 copyHeaders).Header.keys, k ∈ copyHeaders) := by
  have c1 : CanonicalMIMEHeaderKey "User-Agent" = "User-Agent" := by decide
  have c2 : CanonicalMIMEHeaderKey "Accept" = "Accept" := by decide
  have c3 : CanonicalMIMEHeaderKey "Accept-Encoding" = "Accept-Encoding" := by decide
  have c4 : CanonicalMIMEHeaderKey "Accept-Language" = "Accept-Language" := by decide
  obtain ⟨m, u, hd, b, ho⟩ := q0
  simp only at h0
  subst h0
  simp only [copyHeaders, copyRequestHeaders, Header.Set, c1, c2, c3, c4,
    List.forall_mem_cons, List.not_mem_nil, false_imp_iff, implies_true, and_true]
  generalize r.Header.Get "User-Agent" = a1
  generalize r.Header.Get "Accept" = a2
  generalize r.Header.Get "Accept-Encoding" = a3
  generalize r.Header.Get "Accept-Language" = a4
  by_cases h1 : a1 = "" <;> by_cases h2 : a2 = "" <;> by_cases h3 : a3 = "" <;>
  by_cases h4 : a4 = "" <;>
  simp [h1, h2, h3, h4, Header.assign, Header.values, Header.keys]

/-! ## Helper lemmas: `url.Parse` on `ossBaseURL` followed by a plain path -/

theorem cut_of_not_mem (sep : Char) (s : List Char) (h : sep ∉ s) :
    cut sep s = (s, [], false) := by
  induction s with
  | nil => rfl
  | cons c cs ih =>
    simp only [List.mem_cons, not_or] at h
    have hc : ¬ c = sep := fun e => h.1 e.symm
    simp [cut, hc, ih h.2]

theorem indexByte_append (sep : Char) (a b : List Char) (h : sep ∉ a) :
    indexByte sep (a ++ sep :: b) = some a.length := by
  induction a with
  | nil => simp [indexByte]
  | cons c cs ih =>
    simp only [List.mem_cons, not_or] at h
    have hc : ¬ c = sep := fun e => h.1 e.symm
    simp [indexByte, hc, ih h.2]

theorem unescapeCheck_path (s : List Char) (h : '%' ∉ s) :
    unescapeCheck .encodePath s = .ok () := by
  induction s with
  | nil => rfl
  | cons c cs ih =>
    simp only [List.mem_cons, not_or] at h
    have hc : ¬ c = '%' := fun e => h.1 e.symm
    rw [unescapeCheck.eq_def]
    simp [hc, ih h.2]

theorem unescapeDecode_path (s : List Char) (h : '%' ∉ s) :
    unescapeDecode .encodePath s = s := by
  induction s with
  | nil => rfl
  | cons c cs ih =>
    simp only [List.mem_cons, not_or] at h
    have hc : ¬ c = '%' := fun e => h.1 e.symm
    rw [unescapeDecode.eq_def]
    simp [hc, ih h.2]

theorem unescape_path (s : List Char) (h : '%' ∉ s) : unescape s .encodePath = .ok s := by
  simp [unescape, unescapeCheck_path s h, unescapeDecode_path s h]

theorem plainPath_spec (path : String) (h : plainPath path = true) :
    (∃ t, path.toList = '/' :: t) ∧ '?' ∉ path.toList ∧ '#' ∉ path.toList ∧
    '%' ∉ path.toList ∧ stringContainsCTLByte path.toList = false := by
  unfold plainPath at h
  generalize path.toList = s at h ⊢
  simp only [Bool.and_eq_true, decide_eq_true_eq, List.all_eq_true, Bool.not_eq_true',
    beq_eq_false_iff_ne, ne_eq, Bool.or_eq_false_iff, decide_eq_false_iff_not] at h
  obtain ⟨hhead, hall⟩ := h
  refine ⟨?_, fun hm => (hall _ hm).1.1.1 rfl, fun hm => (hall _ hm).1.1.2 rfl,
    fun hm => (hall _ hm).1.2 rfl, ?_⟩
  · cases s with
    | nil => simp at hhead
    | cons c t =>
      simp at hhead
      exact ⟨t, by rw [hhead]⟩
  · simp only [stringContainsCTLByte, List.any_eq_false, Bool.or_eq_true, decide_eq_true_eq,
      not_or]
    exact fun c hc => (hall c hc).2

theorem ossBaseURL_toList :
    ossBaseURL.toList = 'h' :: 't' :: 't' :: 'p' :: 's' :: ':' :: '/' :: '/' :: ossHost.toList := by
  decide

theorem getScheme_https (rest : List Char) :
    getScheme ('h' :: 't' :: 't' :: 'p' :: 's' :: ':' :: rest) =
      .ok (['h', 't', 't', 'p', 's'], rest) := by
  rfl

theorem ossHost_clean :
    '/' ∉ ossHost.toList ∧ '?' ∉ ossHost.toList ∧ '#' ∉ ossHost.toList ∧
    stringContainsCTLByte ossHost.toList = false ∧
    parseAuthority ossHost.toList = .ok (none, ossHost.toList) := by
  decide

theorem parse_host_path (H t : List Char) (h1 : '/' ∉ H) (h2 : '?' ∉ H)
    (h4 : stringContainsCTLByte H = false) (h5 : parseAuthority H = .ok (none, H))
    (hq : '?' ∉ t) (hp : '%' ∉ t) (hctl : stringContainsCTLByte t = false) :
    parse ('h' :: 't' :: 't' :: 'p' :: 's' :: ':' :: '/' :: '/' :: (H ++ '/' :: t)) =
      .ok { Scheme := "https", Host := String.mk H, Path := String.mk ('/' :: t),
            RawPath := if '/' :: t = escape .encodePath ('/' :: t) then ""
                       else String.mk ('/' :: t) } := by
  have hctl0 : stringContainsCTLByte
      ('h' :: 't' :: 't' :: 'p' :: 's' :: ':' :: '/' :: '/' :: (H ++ '/' :: t)) = false := by
    simp only [stringContainsCTLByte, List.any_cons, List.any_append] at h4 hctl ⊢
    rw [h4, hctl]
    decide
  have hq0 : '?' ∉ '/' :: '/' :: (H ++ '/' :: t) := by
    simp only [List.mem_cons, List.mem_append, not_or]
    exact ⟨by decide, by decide, h2, by decide, hq⟩
  have hcut := cut_of_not_mem '?' _ hq0
  have hcount : List.count '?' ('/' :: '/' :: (H ++ '/' :: t)) = 0 :=
    List.count_eq_zero.mpr hq0
  have hidx := indexByte_append '/' H t h1
  have hpath : unescape ('/' :: t) .encodePath = .ok ('/' :: t) :=
    unescape_path _ (by simp only [List.mem_cons, not_or]; exact ⟨by decide, hp⟩)
  unfold parse
  rw [hctl0]
  simp only [getScheme_https, hcut, hcount]
  simp [parseRest, hidx, h5, URL.setPath, hpath]

/-- What `parse` reads from `ossBaseURL` followed by a path that begins with a
slash and has no `?`, no `%` and no control character. -/
theorem parse_base_path (t : List Char) (hq : '?' ∉ t) (hp : '%' ∉ t)
    (hctl : stringContainsCTLByte t = false) :
    parse (ossBaseURL.toList ++ '/' :: t) =
      .ok { Scheme := "https", Host := ossHost, Path := String.mk ('/' :: t),
            RawPath := if '/' :: t = escape .encodePath ('/' :: t) then ""
                       else String.mk ('/' :: t) } := by
  obtain ⟨h1, h2, -, h4, h5⟩ := ossHost_clean
  rw [ossBaseURL_toList]
  exact parse_host_path ossHost.toList t h1 h2 h4 h5 hq hp hctl

/-- What `url.Parse` reads from `ossBaseURL` followed by a plain path. -/
theorem Parse_plainPath (path : String) (h : plainPath path = true) :
    Parse (ossBaseURL ++ path) =
      .ok { Scheme := "https", Host := ossHost, Path := path,
            RawPath := if path.toList = escape .encodePath path.toList then "" else path } := by
  obtain ⟨⟨t, ht⟩, hq, hf, hp, hctl⟩ := plainPath_spec path h
  have hpath : path = String.mk ('/' :: t) := by
    rw [← ht]
    rfl
  rw [ht] at hq hf hp hctl
  simp only [List.mem_cons, not_or] at hq hf hp
  have hctl1 : stringContainsCTLByte t = false := by
    simp only [stringContainsCTLByte, List.any_cons, Bool.or_eq_false_iff] at hctl ⊢
    exact hctl.2
  have hfrag : '#' ∉ ossBaseURL.toList ++ '/' :: t := by
    simp only [List.mem_append, List.mem_cons, not_or]
    exact ⟨by decide, by decide, hf.2⟩
  have hl : (ossBaseURL ++ path).toList = ossBaseURL.toList ++ '/' :: t := by
    rw [String.toList, String.data_append, ← String.toList, ← String.toList, ht]
  unfold Parse
  rw [hl, cut_of_not_mem '#' _ hfrag]
  simp only []
  rw [parse_base_path t hq.2 hp.2 hctl1, ht, ← hpath]
  simp only [if_true]

theorem removeEmptyPort_ossHost : removeEmptyPort ossHost = ossHost := by
  decide

/-! ## Helper lemmas: decimal digits -/

theorem digitChar_spec (n : Nat) :
    isDigit09 (digitChar n) = true ∧ (digitChar n).toNat - '0'.toNat = n % 10 := by
  have h : ∀ k, k < 10 → isDigit09 (Char.ofNat ('0'.toNat + k)) = true ∧
      (Char.ofNat ('0'.toNat + k)).toNat - '0'.toNat = k := by
    decide
  exact h (n % 10) (Nat.mod_lt _ (by decide))

theorem digitChar_zero : digitChar 0 = '0' := by decide

theorem decimal_small (f n : Nat) (hn : n < 10) : decimal (f + 1) n = [digitChar n] := by
  simp [decimal, hn]

theorem decimal_step (f n : Nat) (hn : 10 ≤ n) :
    decimal (f + 1) n = decimal f (n / 10) ++ [digitChar n] := by
  have : ¬ n < 10 := by omega
  simp [decimal, this]

theorem decimal_stamp (f n : Nat) : ∀ c ∈ decimal f n, isStampChar c = true := by
  induction f generalizing n with
  | zero => simp [decimal]
  | succ f ih =>
    intro c hc
    by_cases hn : n < 10
    · rw [decimal_small f n hn] at hc
      simp only [List.mem_singleton] at hc
      simp [isStampChar, hc, (digitChar_spec n).1]
    · rw [decimal_step f n (by omega)] at hc
      simp only [List.mem_append, List.mem_singleton] at hc
      rcases hc with hc | hc
      · exact ih _ c hc
      · simp [isStampChar, hc, (digitChar_spec n).1]

theorem digitChar_div (n k : Nat) (h : n < k) : digitChar (n / k) = '0' := by
  rw [Nat.div_eq_of_lt h, digitChar_zero]

/-- Two-digit fields. -/
theorem appendInt_two (b : List Char) (n : Nat) (h : n < 100) :
    appendInt b (n : Int) 2 = b ++ [digitChar (n / 10), digitChar n] := by
  have hneg : ¬ ((n : Int) < 0) := by omega
  simp only [appendInt, Int.natAbs_ofNat, hneg, if_false, List.append_nil]
  by_cases h1 : n < 10
  · rw [decimal_small n n h1, digitChar_div n 10 h1]
    simp [List.replicate]
  · have h2 : n / 10 < 10 := by omega
    obtain ⟨m, hm⟩ : ∃ m, n = m + 1 := ⟨n - 1, by omega⟩
    rw [decimal_step n n (by omega)]
    conv => lhs; rw [hm]
    rw [decimal_small m _ (by omega)]
    simp [hm]

/-- Four-digit fields. -/
theorem appendInt_four (b : List Char) (n : Nat) (h : n < 10000) :
    appendInt b (n : Int) 4 =
      b ++ [digitChar (n / 1000), digitChar (n / 100), digitChar (n / 10), digitChar n] := by
  have hneg : ¬ ((n : Int) < 0) := by omega
  simp only [appendInt, Int.natAbs_ofNat, hneg, if_false, List.append_nil]
  by_cases h1 : n < 10
  · rw [decimal_small n n h1, digitChar_div n 10 h1, digitChar_div n 100 (by omega),
      digitChar_div n 1000 (by omega)]
    simp [List.replicate]
  · by_cases h2 : n < 100
    · obtain ⟨m, hm⟩ : ∃ m, n = m + 1 := ⟨n - 1, by omega⟩
      rw [decimal_step n n (by omega), digitChar_div n 100 h2, digitChar_div n 1000 (by omega)]
      conv => lhs; rw [hm]
      rw [decimal_small m _ (by omega)]
      simp [hm, List.replicate]
    · by_cases h3 : n < 1000
      · obtain ⟨m, hm⟩ : ∃ m, n = m + 2 := ⟨n - 2, by omega⟩
        rw [decimal_step n n (by omega), digitChar_div n 1000 h3]
        conv => lhs; rw [hm]
        rw [decimal_step (m + 1) _ (by omega), decimal_small m _ (by omega)]
        simp [hm, List.replicate, Nat.div_div_eq_div_mul]
      · obtain ⟨m, hm⟩ : ∃ m, n = m + 3 := ⟨n - 3, by omega⟩
        rw [decimal_step n n (by omega)]
        conv => lhs; rw [hm]
        rw [decimal_step (m + 2) _ (by omega), decimal_step (m + 1) _ (by omega),
          decimal_small m _ (by omega)]
        simp [hm, Nat.div_div_eq_div_mul]

/-! ## Helper lemmas: the timestamp -/

theorem digitsValue_two (n : Nat) (h : n < 100) :
    digitsValue [digitChar (n / 10), digitChar n] = some n := by
  obtain ⟨a1, a2⟩ := digitChar_spec (n / 10)
  obtain ⟨b1, b2⟩ := digitChar_spec n
  simp only [digitsValue, List.foldl, a1, b1, if_true, a2, b2]
  congr 1
  omega

theorem digitsValue_four (n : Nat) (h : n < 10000) :
    digitsValue [digitChar (n / 1000), digitChar (n / 100), digitChar (n / 10), digitChar n]
      = some n := by
  obtain ⟨a1, a2⟩ := digitChar_spec (n / 1000)
  obtain ⟨b1, b2⟩ := digitChar_spec (n / 100)
  obtain ⟨c1, c2⟩ := digitChar_spec (n / 10)
  obtain ⟨d1, d2⟩ := digitChar_spec n
  simp only [digitsValue, List.foldl, a1, b1, c1, d1, if_true, a2, b2, c2, d2]
  congr 1
  omega

theorem tdiv_natAbs_lt (offset : Int) (h1 : -86400 < offset) (h2 : offset < 86400) :
    (Int.tdiv offset 60).natAbs < 1440 := by
  rw [Int.natAbs_tdiv]
  show offset.natAbs / 60 < 1440
  omega

theorem appendInt_zone (b : List Char) (offset : Int) (h1 : -86400 < offset)
    (h2 : offset < 86400) :
    appendInt (appendInt b (Int.tdiv
        (if Int.tdiv offset 60 < 0 then -Int.tdiv offset 60 else Int.tdiv offset 60) 60) 2 ++ [':'])
      (Int.tmod (if Int.tdiv offset 60 < 0 then -Int.tdiv offset 60 else Int.tdiv offset 60) 60) 2 =
    b ++ [digitChar ((Int.tdiv offset 60).natAbs / 60 / 10),
          digitChar ((Int.tdiv offset 60).natAbs / 60), ':',
          digitChar ((Int.tdiv offset 60).natAbs % 60 / 10),
          digitChar ((Int.tdiv offset 60).natAbs % 60)] := by
  have hk := tdiv_natAbs_lt offset h1 h2
  have habs : (if Int.tdiv offset 60 < 0 then -Int.tdiv offset 60 else Int.tdiv offset 60)
      = (((Int.tdiv offset 60).natAbs : Nat) : Int) := by
    split <;> omega
  rw [habs]
  generalize (Int.tdiv offset 60).natAbs = k at hk ⊢
  have e1 : Int.tdiv (k : Int) 60 = ((k / 60 : Nat) : Int) := rfl
  have e2 : Int.tmod (k : Int) 60 = ((k % 60 : Nat) : Int) := rfl
  rw [e1, e2, appendInt_two _ _ (by omega), appendInt_two _ _ (by omega)]
  simp

/-- The text `Format` writes for a valid civil time. -/
theorem appendFormatRFC3339_valid (t : Time) (hv : t.valid) :
    t.appendFormatRFC3339 [] =
      [digitChar (t.year.toNat / 1000), digitChar (t.year.toNat / 100),
       digitChar (t.year.toNat / 10), digitChar t.year.toNat, '-',
       digitChar (t.month / 10), digitChar t.month, '-',
       digitChar (t.day / 10), digitChar t.day, 'T',
       digitChar (t.hour / 10), digitChar t.hour, ':',
       digitChar (t.minute / 10), digitChar t.minute, ':',
       digitChar (t.second / 10), digitChar t.second] ++ zoneSuffix t.offset := by
  obtain ⟨y0, y1, m0, m1, d0, d1, hh, hmi, hs, o0, o1⟩ := hv
  have hd : t.day ≤ 31 := by
    have : daysIn t.year.toNat t.month ≤ 31 := by
      unfold daysIn
      split
      · split <;> omega
      · split <;> omega
    omega
  have hy : t.year = ((t.year.toNat : Nat) : Int) := by omega
  have hyl : t.year.toNat < 10000 := by omega
  unfold Time.appendFormatRFC3339
  simp only []
  rw [hy, appendInt_four _ _ hyl, appendInt_two _ _ (by omega : t.month < 100),
    appendInt_two _ _ (by omega : t.day < 100), appendInt_two _ _ (by omega : t.hour < 100),
    appendInt_two _ _ (by omega : t.minute < 100), appendInt_two _ _ (by omega : t.second < 100)]
  rw [← hy]
  by_cases hz : t.offset = 0
  · simp [hz, zoneSuffix]
  · simp only [hz, if_false, zoneSuffix]
    by_cases hneg : Int.tdiv t.offset 60 < 0
    · have := appendInt_zone
        ([] ++ [digitChar (t.year.toNat / 1000), digitChar (t.year.toNat / 100),
           digitChar (t.year.toNat / 10), digitChar t.year.toNat] ++ ['-'] ++
          [digitChar (t.month / 10), digitChar t.month] ++ ['-'] ++
          [digitChar (t.day / 10), digitChar t.day] ++ ['T'] ++
          [digitChar (t.hour / 10), digitChar t.hour] ++ [':'] ++
          [digitChar (t.minute / 10), digitChar t.minute] ++ [':'] ++
          [digitChar (t.second / 10), digitChar t.second] ++ ['-']) t.offset o0 o1
      simp only [hneg, if_true] at this ⊢
      rw [this]
      simp
    · have := appendInt_zone
        ([] ++ [digitChar (t.year.toNat / 1000), digitChar (t.year.toNat / 100),
           digitChar (t.year.toNat / 10), digitChar t.year.toNat] ++ ['-'] ++
          [digitChar (t.month / 10), digitChar t.month] ++ ['-'] ++
          [digitChar (t.day / 10), digitChar t.day] ++ ['T'] ++
          [digitChar (t.hour / 10), digitChar t.hour] ++ [':'] ++
          [digitChar (t.minute / 10), digitChar t.minute] ++ [':'] ++
          [digitChar (t.second / 10), digitChar t.second] ++ ['+']) t.offset o0 o1
      simp only [hneg, if_false] at this ⊢
      rw [this]
      simp

theorem isRFC3339Offset_zoneSuffix (offset : Int) (h1 : -86400 < offset) (h2 : offset < 86400) :
    isRFC3339Offset (zoneSuffix offset) = true := by
  have hk := tdiv_natAbs_lt offset h1 h2
  unfold zoneSuffix
  by_cases hz : offset = 0
  · simp [hz, isRFC3339Offset]
  · simp only [hz, if_false]
    generalize (Int.tdiv offset 60).natAbs = k at hk ⊢
    have v1 := digitsValue_two (k / 60) (by omega)
    have v2 := digitsValue_two (k % 60) (by omega)
    have r1 : k / 60 ≤ 23 := by omega
    have r2 : k % 60 ≤ 59 := by omega
    split <;> simp [isRFC3339Offset, v1, v2, r1, r2]

/-- The text `Format` writes for a valid civil time is an RFC 3339 `date-time`. -/
theorem isRFC3339_Format (t : Time) (hv : t.valid) : isRFC3339 t.Format.toList = true := by
  have hshape := appendFormatRFC3339_valid t hv
  obtain ⟨y0, y1, m0, m1, d0, d1, hh, hmi, hs, o0, o1⟩ := hv
  have hd : t.day ≤ 31 := by
    have : daysIn t.year.toNat t.month ≤ 31 := by
      unfold daysIn
      split
      · split <;> omega
      · split <;> omega
    omega
  have hl : t.Format.toList = t.appendFormatRFC3339 [] := rfl
  rw [hl, hshape]
  have vy := digitsValue_four t.year.toNat (by omega)
  have vm := digitsValue_two t.month (by omega)
  have vd := digitsValue_two t.day (by omega)
  have vh := digitsValue_two t.hour (by omega)
  have vi := digitsValue_two t.minute (by omega)
  have vs := digitsValue_two t.second (by omega)
  have hs60 : t.second ≤ 60 := by omega
  simp [isRFC3339, vy, vm, vd, vh, vi, vs, m0, m1, d0, d1, hh, hmi, hs60,
    isRFC3339Offset_zoneSuffix t.offset o0 o1]

/-! ## Helper lemmas: the JSON text -/

theorem appendInt_stamp (b : List Char) (x : Int) (width : Nat)
    (hb : ∀ c ∈ b, isStampChar c = true) : ∀ c ∈ appendInt b x width, isStampChar c = true := by
  intro c hc
  simp only [appendInt, List.mem_append, List.mem_replicate] at hc
  rcases hc with ((hc | hc) | hc) | hc
  · exact hb c hc
  · split at hc
    · simp only [List.mem_singleton] at hc
      rw [hc]
      decide
    · simp at hc
  · rw [hc.2]
    decide
  · exact decimal_stamp _ _ c hc

theorem append_stamp (b : List Char) (d : Char) (hb : ∀ c ∈ b, isStampChar c = true)
    (hd : isStampChar d = true) : ∀ c ∈ b ++ [d], isStampChar c = true := by
  intro c hc
  simp only [List.mem_append, List.mem_singleton] at hc
  rcases hc with hc | hc
  · exact hb c hc
  · rw [hc]
    exact hd

/-- Whatever the time, `Format` writes digits, `-`, `T`, `:`, `Z` and `+` only. -/
theorem Format_stamp (t : Time) : ∀ c ∈ t.Format.toList, isStampChar c = true := by
  have hl : t.Format.toList = t.appendFormatRFC3339 [] := rfl
  rw [hl]
  unfold Time.appendFormatRFC3339
  simp only []
  have h0 : ∀ c ∈ ([] : List Char), isStampChar c = true := by simp
  have h1 := appendInt_stamp [] t.year 4 h0
  have h2 := append_stamp _ '-' h1 (by decide)
  have h3 := appendInt_stamp _ t.month 2 h2
  have h4 := append_stamp _ '-' h3 (by decide)
  have h5 := appendInt_stamp _ t.day 2 h4
  have h6 := append_stamp _ 'T' h5 (by decide)
  have h7 := appendInt_stamp _ t.hour 2 h6
  have h8 := append_stamp _ ':' h7 (by decide)
  have h9 := appendInt_stamp _ t.minute 2 h8
  have h10 := append_stamp _ ':' h9 (by decide)
  have h11 := appendInt_stamp _ t.second 2 h10
  split
  · exact append_stamp _ 'Z' h11 (by decide)
  · split
    · have h12 := append_stamp _ '-' h11 (by decide)
      exact appendInt_stamp _ _ 2 (append_stamp _ ':' (appendInt_stamp _ _ 2 h12) (by decide))
    · have h12 := append_stamp _ '+' h11 (by decide)
      exact appendInt_stamp _ _ 2 (append_stamp _ ':' (appendInt_stamp _ _ 2 h12) (by decide))

theorem stamp_plain (c : Char) (h : isStampChar c = true) :
    c ≠ '"' ∧ c ≠ '\\' ∧ ¬ c.toNat < 0x20 := by
  refine ⟨?_, ?_, ?_⟩
  · rintro rfl
    exact absurd h (by decide)
  · rintro rfl
    exact absurd h (by decide)
  · intro hlt
    simp only [isStampChar, isDigit09, Bool.or_eq_true, Bool.and_eq_true, decide_eq_true_eq,
      beq_iff_eq] at h
    rcases h with ((((h | h) | h) | h) | h) | h
    · have h48 : '0'.toNat ≤ c.toNat := h.1
      have : '0'.toNat = 48 := by decide
      omega
    all_goals (rw [h] at hlt; exact absurd hlt (by decide))

theorem jsonStringBody_append (s rest : List Char)
    (hs : ∀ c ∈ s, c ≠ '"' ∧ c ≠ '\\' ∧ ¬ c.toNat < 0x20) :
    jsonStringBody (s ++ '"' :: rest) = some (s, rest) := by
  induction s with
  | nil => simp [jsonStringBody]
  | cons c cs ih =>
    obtain ⟨h1, h2, h3⟩ := hs c (by simp)
    have ih := ih (fun d hd => hs d (by simp [hd]))
    simp [jsonStringBody, h1, h2, h3, ih]

/-- A text of the shape the liveness handler writes is a JSON object with the
two string members `status` and `timestamp`. -/
theorem parseJSONObject_health (ts : List Char)
    (hs : ∀ c ∈ ts, c ≠ '"' ∧ c ≠ '\\' ∧ ¬ c.toNat < 0x20) :
    parseJSONObject ("\x7b\"status\": \"ok\", \"timestamp\": \"".toList ++ ts ++ "\"\x7d".toList)
      = some [("status", "ok"), ("timestamp", String.mk ts)] := by
  have h1 : "\x7b\"status\": \"ok\", \"timestamp\": \"".toList =
      ['{', '"', 's', 't', 'a', 't', 'u', 's', '"', ':', ' ', '"', 'o', 'k', '"', ',', ' ',
       '"', 't', 'i', 'm', 'e', 's', 't', 'a', 'm', 'p', '"', ':', ' ', '"'] := by decide
  have h2 : "\"\x7d".toList = ['"', '}'] := by decide
  have hb := jsonStringBody_append ts ['}'] hs
  rw [h1, h2]
  simp [parseJSONObject, skipSpace, isJSONSpace, jsonMembers, jsonMember, jsonStringBody, hb]

theorem healthCheck_events (now : Time) (l : Option Nat) (r : Request) :
    ∃ n, (healthCheck now (ResponseWriter.fresh l) r).w.events =
      [Event.writeHeader 200 [("Content-Type", ["application/json"])],
       Event.write (bytesOf
         ("\x7b\"status\": \"ok\", \"timestamp\": \"" ++ now.Format ++ "\"\x7d")) n] := by
  cases l with
  | none =>
    exact ⟨(bytesOf
        ("\x7b\"status\": \"ok\", \"timestamp\": \"" ++ now.Format ++ "\"\x7d")).length, by
      simp [healthCheck, ResponseWriter.fresh, ResponseWriter.WriteHeader, ResponseWriter.Write,
        Header.Set, Header.assign, canonical_contentType]⟩
  | some k =>
    by_cases hk : (bytesOf
        ("\x7b\"status\": \"ok\", \"timestamp\": \"" ++ now.Format ++ "\"\x7d")).length ≤ k
    · exact ⟨(bytesOf
          ("\x7b\"status\": \"ok\", \"timestamp\": \"" ++ now.Format ++ "\"\x7d")).length, by
        simp [healthCheck, ResponseWriter.fresh, ResponseWriter.WriteHeader,
          ResponseWriter.Write, Header.Set, Header.assign, canonical_contentType, hk]⟩
    · exact ⟨k, by
        simp [healthCheck, ResponseWriter.fresh, ResponseWriter.WriteHeader,
          ResponseWriter.Write, Header.Set, Header.assign, canonical_contentType, hk]⟩

/-! ## The claims -/

/-- C1, as stated, fails: for the decoded path `/a` + line feed + `b` (sent as
`GET /a%0Ab`) `http.NewRequest` rejects the URL string for its control
character; no outbound request is issued and the caller gets status 500. -/
theorem C1_counterexample :
    ((answering notFound).ServeHTTP (ResponseWriter.fresh none)
      (getRequest "/a\nb" [])).outbound = [] ∧
    ((answering notFound).ServeHTTP (ResponseWriter.fresh none)
      (getRequest "/a\nb" [])).w.status = some 500 := by
  decide

/-- C1, amended. For a `GET` with decoded path `P`: whenever `url.Parse` reads a
URL from the string `ossBaseURL ++ P`, exactly one outbound request is issued,
its method is `GET`, it has no body and its URL is that URL (an empty port
dropped from the host); and for every `P` that begins with a slash and holds no
`?`, `#`, `%` nor control character this is the case, the URL being scheme
`https`, the upstream host, path `P`, no user, no query and no fragment. -/
theorem C1_one_outbound_request (p : OSSProxy) (w : ResponseWriter) (r : Request)
    (hm : r.Method = "GET") :
    (∀ u, Parse (ossBaseURL ++ r.URL.Path) = .ok u →
      ∃ q, (p.ServeHTTP w r).outbound = [q] ∧ q.Method = "GET" ∧ q.Body = none ∧
        q.URL = { u with Host := removeEmptyPort u.Host }) ∧
    (plainPath r.URL.Path = true →
      ∃ q, (p.ServeHTTP w r).outbound = [q] ∧ q.Method = "GET" ∧ q.Body = none ∧
        q.URL.Scheme = "https" ∧ q.URL.Host = ossHost ∧ q.URL.Path = r.URL.Path ∧
        q.URL.User = none ∧ q.URL.Opaque = "" ∧ q.URL.RawQuery = "" ∧ q.URL.Fragment = "") := by
  have hv : validMethod "GET" = true := by decide
  have key : ∀ u, Parse (ossBaseURL ++ r.URL.Path) = .ok u →
      ∃ q, (p.ServeHTTP w r).outbound = [q] ∧ q.Method = "GET" ∧ q.Body = none ∧
        q.URL = { u with Host := removeEmptyPort u.Host } := by
    intro u hu
    have hq : NewRequest "GET" (ossBaseURL ++ r.URL.Path) none =
        .ok { Method := "GET", URL := { u with Host := removeEmptyPort u.Host }, Header := [],
              Body := none, Host := removeEmptyPort u.Host } := by
      simp [NewRequest, hv, hu]
    refine ⟨copyRequestHeaders r
      { Method := "GET", URL := { u with Host := removeEmptyPort u.Host }, Header := [],
        Body := none, Host := removeEmptyPort u.Host } copyHeaders, ?_, ?_, ?_, ?_⟩
    · rw [ServeHTTP_outbound]
      simp only [hm, hq, ne_eq, not_true_eq_false, if_false]
    · rw [(copyRequestHeaders_frame r copyHeaders _).1]
    · rw [(copyRequestHeaders_frame r copyHeaders _).2.2.1]
    · rw [(copyRequestHeaders_frame r copyHeaders _).2.1]
  refine ⟨key, fun hplain => ?_⟩
  obtain ⟨q, h1, h2, h3, h4⟩ := key _ (Parse_plainPath _ hplain)
  refine ⟨q, h1, h2, h3, ?_⟩
  rw [h4]
  simp [removeEmptyPort_ossHost]

theorem C1_one_outbound_request_witness :
    ∃ q, ((answering notFound).ServeHTTP (ResponseWriter.fresh none) browserRequest).outbound
        = [q] ∧ q.Method = "GET" ∧ q.Body = none ∧
      q.URL.Scheme = "https" ∧ q.URL.Host = ossHost ∧ q.URL.Path = "/img/a.png" ∧
      q.URL.User = none ∧ q.URL.Opaque = "" ∧ q.URL.RawQuery = "" ∧ q.URL.Fragment = "" :=
  (C1_one_outbound_request (answering notFound) (ResponseWriter.fresh none) browserRequest
    (by decide)).2 (by decide)

/-- C2. A request whose method is not exactly `GET` is answered with status 405
and the body `Method not allowed` followed by a newline, and nothing is handed
to the client, whatever the path, the headers and the caller's connection. -/
theorem C2_non_get_rejected (p : OSSProxy) (l : Option Nat) (r : Request)
    (hm : r.Method ≠ "GET") :
    (p.ServeHTTP (ResponseWriter.fresh l) r).w.status = some 405 ∧
    (p.ServeHTTP (ResponseWriter.fresh l) r).w.body = bytesOf "Method not allowed\n" ∧
    (p.ServeHTTP (ResponseWriter.fresh l) r).outbound = [] := by
  have h : p.ServeHTTP (ResponseWriter.fresh l) r
      = { w := Error (ResponseWriter.fresh l) "Method not allowed" 405 } := by
    simp [OSSProxy.ServeHTTP, hm]
  rw [h]
  refine ⟨Error_fresh_status _ _ _, ?_, rfl⟩
  rw [Error_fresh_body]
  decide

theorem C2_non_get_rejected_witness :
    ((answering notFound).ServeHTTP (ResponseWriter.fresh none)
      { getRequest "/a.png" [] with Method := "get" }).w.status = some 405 ∧
    ((answering notFound).ServeHTTP (ResponseWriter.fresh none)
      { getRequest "/a.png" [] with Method := "get" }).w.body = bytesOf "Method not allowed\n" ∧
    ((answering notFound).ServeHTTP (ResponseWriter.fresh none)
      { getRequest "/a.png" [] with Method := "get" }).outbound = [] :=
  C2_non_get_rejected (answering notFound) none { getRequest "/a.png" [] with Method := "get" }
    (by decide)

/-- C3, as stated, fails: the inbound request carries `Accept` with the
non-empty value `text/html`, after an empty first value, and the one outbound
request carries no `Accept`. -/
theorem C3_counterexample :
    "text/html" ∈ browserRequest.Header.values "Accept" ∧
    ((answering notFound).ServeHTTP (ResponseWriter.fresh none) browserRequest).outbound.length = 1 ∧
    ∀ q ∈ ((answering notFound).ServeHTTP (ResponseWriter.fresh none) browserRequest).outbound,
      q.Header.values "Accept" = [] := by
  decide

/-- C3, amended. For a forwarded `GET`: (1) for each of the four listed headers,
when the first value the inbound request holds for it is non-empty the outbound
request carries the header with exactly that one value, and when the inbound
request lacks it or its first value is empty the outbound request does not
carry it; (2) the outbound request carries no header outside the four. -/
theorem C3_allow_list (p : OSSProxy) (w : ResponseWriter) (r q0 : Request)
    (hm : r.Method = "GET")
    (hq : NewRequest "GET" (ossBaseURL ++ r.URL.Path) none = .ok q0) :
    ∃ q, (p.ServeHTTP w r).outbound = [q] ∧
      (∀ H ∈ copyHeaders, q.Header.values H =
        if (r.Header.values H).headD "" = "" then [] else [(r.Header.values H).headD ""]) ∧
      (∀ k, k ∉ copyHeaders → q.Header.values k = []) ∧
      (∀ k ∈ q.Header.keys, k ∈ copyHeaders) := by
  refine ⟨copyRequestHeaders r q0 copyHeaders, ?_, ?_, ?_, ?_⟩
  · rw [ServeHTTP_outbound]
    simp [hm, hq]
  · obtain ⟨u, -, hq0⟩ := NewRequest_ok _ _ hq
    have h0 : q0.Header = [] := by rw [hq0]
    intro H hH
    rw [(copyRequestHeaders_values r q0 h0).1 H hH,
      Get_eq_headD _ _ (canonical_copyHeaders H hH)]
  · obtain ⟨u, -, hq0⟩ := NewRequest_ok _ _ hq
    have h0 : q0.Header = [] := by rw [hq0]
    intro k hk
    exact values_of_not_mem_keys _ _ (fun hmem => hk ((copyRequestHeaders_values r q0 h0).2 k hmem))
  · obtain ⟨u, -, hq0⟩ := NewRequest_ok _ _ hq
    have h0 : q0.Header = [] := by rw [hq0]
    exact (copyRequestHeaders_values r q0 h0).2

theorem C3_allow_list_witness :
    ∃ q, ((answering notFound).ServeHTTP (ResponseWriter.fresh none) otherRequest).outbound = [q] ∧
      (∀ H ∈ copyHeaders, q.Header.values H =
        if (otherRequest.Header.values H).headD "" = "" then []
        else [(otherRequest.Header.values H).headD ""]) ∧
      (∀ k, k ∉ copyHeaders → q.Header.values k = []) ∧
      (∀ k ∈ q.Header.keys, k ∈ copyHeaders) :=
  C3_allow_list (answering notFound) (ResponseWriter.fresh none) otherRequest
    (plainOutbound "/img/a.png")
    (by decide) (by decide)

/-- C4. When the upstream call returns a response, the status code of the header
block sent to the caller is that response's status code: the handler hands
`resp.StatusCode` itself to `WriteHeader`, for every code. -/
theorem C4_status_passthrough (p : OSSProxy) (l : Option Nat) (r q0 : Request)
    (resp : Response) (hm : r.Method = "GET")
    (hq : NewRequest "GET" (ossBaseURL ++ r.URL.Path) none = .ok q0)
    (hdo : p.client.Do (copyRequestHeaders r q0 copyHeaders) = .ok resp) :
    (p.ServeHTTP (ResponseWriter.fresh l) r).w.status = some resp.StatusCode := by
  rw [(ServeHTTP_fetched p _ r q0 resp hm hq hdo).1, fetched_writer, Copy]
  obtain ⟨ev, hev⟩ := (copyLoop_frame resp.Body.chunks
    { header := copyResponseHeaders [] resp.Header, wroteHeader := true,
      events := [Event.writeHeader resp.StatusCode (copyResponseHeaders [] resp.Header)],
      limit := l } resp.Body.err 0 rfl).2.1
  simp only at hev
  simp [ResponseWriter.status, ← hev]

theorem C4_status_passthrough_witness :
    ((answering notFound).ServeHTTP (ResponseWriter.fresh none)
      (getRequest "/missing.png" [])).w.status = some 404 :=
  C4_status_passthrough (answering notFound) none (getRequest "/missing.png" [])
    (plainOutbound "/missing.png")
    notFound (by decide) (by decide) rfl

/-- C5, as stated, fails: the upstream body is the three bytes `60 63 120`, read
in two parts; the caller's connection takes one byte and then breaks; the copy
stops at the failed write, so the handler hands over `60 63` only, of which the
caller gets `60`. -/
theorem C5_counterexample :
    notFound.Body.bytes = [60, 63, 120] ∧
    ((answering notFound).ServeHTTP (ResponseWriter.fresh (some 1))
      (getRequest "/missing.png" [])).outbound.length = 1 ∧
    ((answering notFound).ServeHTTP (ResponseWriter.fresh (some 1))
      (getRequest "/missing.png" [])).w.body = [60, 63] ∧
    ((answering notFound).ServeHTTP (ResponseWriter.fresh (some 1))
      (getRequest "/missing.png" [])).w.delivered = [60] := by
  decide

/-- C5, amended. When the upstream call returns a response whose body yields the
bytes `B`: the header block with the status code is sent first; the bytes
handed to the caller, and the bytes the caller takes, are a prefix of `B`; and
when the caller's connection takes `B.length` bytes, both are exactly `B`. -/
theorem C5_body_passthrough (p : OSSProxy) (l : Option Nat) (r q0 : Request)
    (resp : Response) (hm : r.Method = "GET")
    (hq : NewRequest "GET" (ossBaseURL ++ r.URL.Path) none = .ok q0)
    (hdo : p.client.Do (copyRequestHeaders r q0 copyHeaders) = .ok resp) :
    (∃ hdr, (p.ServeHTTP (ResponseWriter.fresh l) r).w.events.head? =
      some (Event.writeHeader resp.StatusCode hdr)) ∧
    (p.ServeHTTP (ResponseWriter.fresh l) r).w.body <+: resp.Body.bytes ∧
    (p.ServeHTTP (ResponseWriter.fresh l) r).w.delivered <+: resp.Body.bytes ∧
    (takes l resp.Body.bytes.length →
      (p.ServeHTTP (ResponseWriter.fresh l) r).w.body = resp.Body.bytes ∧
      (p.ServeHTTP (ResponseWriter.fresh l) r).w.delivered = resp.Body.bytes) := by
  rw [(ServeHTTP_fetched p _ r q0 resp hm hq hdo).1, fetched_writer, Copy]
  obtain ⟨-, ⟨ev, hev⟩, ⟨x, hx, hbody⟩, ⟨y, hy, hdel⟩⟩ := copyLoop_frame resp.Body.chunks
    { header := copyResponseHeaders [] resp.Header, wroteHeader := true,
      events := [Event.writeHeader resp.StatusCode (copyResponseHeaders [] resp.Header)],
      limit := l } resp.Body.err 0 rfl
  simp only at hev
  refine ⟨⟨_, by rw [← hev]; rfl⟩, ?_, ?_, fun ht => ?_⟩
  · rw [hbody]
    simpa [ResponseWriter.body, Body.bytes] using hx
  · rw [hdel]
    simpa [ResponseWriter.delivered, Body.bytes] using hy
  · obtain ⟨h1, h2, -, -⟩ := copyLoop_complete resp.Body.chunks
      { header := copyResponseHeaders [] resp.Header, wroteHeader := true,
        events := [Event.writeHeader resp.StatusCode (copyResponseHeaders [] resp.Header)],
        limit := l } resp.Body.err 0 rfl ht
    rw [h1, h2]
    simp [ResponseWriter.body, ResponseWriter.delivered, Body.bytes]

theorem C5_body_passthrough_witness :
    ((answering notFound).ServeHTTP (ResponseWriter.fresh (some 3))
      (getRequest "/missing.png" [])).w.body = [60, 63, 120] ∧
    ((answering notFound).ServeHTTP (ResponseWriter.fresh (some 3))
      (getRequest "/missing.png" [])).w.delivered = [60, 63, 120] :=
  (C5_body_passthrough (answering notFound) (some 3) (getRequest "/missing.png" [])
    (plainOutbound "/missing.png") notFound (by decide) (by decide) rfl).2.2.2
    (fun k hk => by cases hk; exact Nat.le_refl 3)

/-- C6. When the upstream call returns a response with header map `H` (a map
has distinct keys, and the keys of a response are canonical), the header block
sent to the caller holds under every key exactly the values of `H`, no key
that `H` lacks, and it is sent, first of all, with the map complete. -/
theorem C6_headers_passthrough (p : OSSProxy) (l : Option Nat) (r q0 : Request)
    (resp : Response) (hm : r.Method = "GET")
    (hq : NewRequest "GET" (ossBaseURL ++ r.URL.Path) none = .ok q0)
    (hdo : p.client.Do (copyRequestHeaders r q0 copyHeaders) = .ok resp)
    (hnodup : resp.Header.keys.Nodup)
    (hcanon : ∀ k ∈ resp.Header.keys, CanonicalMIMEHeaderKey k = k) :
    (∀ k, (p.ServeHTTP (ResponseWriter.fresh l) r).w.sentHeader.values k = resp.Header.values k) ∧
    (∀ k ∈ (p.ServeHTTP (ResponseWriter.fresh l) r).w.sentHeader.keys, k ∈ resp.Header.keys) ∧
    (p.ServeHTTP (ResponseWriter.fresh l) r).w.events.head? =
      some (Event.writeHeader resp.StatusCode (p.ServeHTTP (ResponseWriter.fresh l) r).w.header) := by
  rw [(ServeHTTP_fetched p _ r q0 resp hm hq hdo).1, fetched_writer, Copy]
  obtain ⟨hhd, ⟨ev, hev⟩, -, -⟩ := copyLoop_frame resp.Body.chunks
    { header := copyResponseHeaders [] resp.Header, wroteHeader := true,
      events := [Event.writeHeader resp.StatusCode (copyResponseHeaders [] resp.Header)],
      limit := l } resp.Body.err 0 rfl
  simp only at hev hhd
  have hsent : ResponseWriter.sentHeader (copyLoop
      { header := copyResponseHeaders [] resp.Header, wroteHeader := true,
        events := [Event.writeHeader resp.StatusCode (copyResponseHeaders [] resp.Header)],
        limit := l } resp.Body.chunks resp.Body.err 0).1 = copyResponseHeaders [] resp.Header := by
    simp [ResponseWriter.sentHeader, ← hev]
  refine ⟨fun k => ?_, fun k hk => ?_, ?_⟩
  · rw [hsent, values_copyResponseHeaders _ _ _ hnodup hcanon]
    simp [Header.values]
  · rw [hsent] at hk
    rcases keys_copyResponseHeaders _ _ _ hcanon hk with h1 | h1
    · simp [Header.keys] at h1
    · exact h1
  · rw [hhd, ← hev]
    simp

theorem C6_headers_passthrough_witness :
    (∀ k, ((answering notFound).ServeHTTP (ResponseWriter.fresh none)
        (getRequest "/missing.png" [])).w.sentHeader.values k = notFound.Header.values k) ∧
    (∀ k ∈ ((answering notFound).ServeHTTP (ResponseWriter.fresh none)
        (getRequest "/missing.png" [])).w.sentHeader.keys, k ∈ notFound.Header.keys) ∧
    ((answering notFound).ServeHTTP (ResponseWriter.fresh none)
        (getRequest "/missing.png" [])).w.events.head? =
      some (Event.writeHeader notFound.StatusCode
        ((answering notFound).ServeHTTP (ResponseWriter.fresh none)
          (getRequest "/missing.png" [])).w.header) :=
  C6_headers_passthrough (answering notFound) none (getRequest "/missing.png" [])
    (plainOutbound "/missing.png")
    notFound (by decide) (by decide) rfl (by decide) (by decide)

/-- C7. When the outbound call fails with a transport error, the caller gets
status 502 with the body `Failed to fetch from OSS` and a newline, the header
block is the one of `http.Error` (nothing of a response that came with the
error is copied), and the client was called exactly once. -/
theorem C7_transport_error (p : OSSProxy) (l : Option Nat) (r q0 : Request)
    (err : String) (ro : Option Response) (hm : r.Method = "GET")
    (hq : NewRequest "GET" (ossBaseURL ++ r.URL.Path) none = .ok q0)
    (hdo : p.client.Do (copyRequestHeaders r q0 copyHeaders) = .failed err ro) :
    (p.ServeHTTP (ResponseWriter.fresh l) r).w.status = some 502 ∧
    (p.ServeHTTP (ResponseWriter.fresh l) r).w.body = bytesOf "Failed to fetch from OSS\n" ∧
    (p.ServeHTTP (ResponseWriter.fresh l) r).w.sentHeader = errorHeader ∧
    (p.ServeHTTP (ResponseWriter.fresh l) r).outbound.length = 1 := by
  rw [ServeHTTP_fetchFailed p _ r q0 err ro hm hq hdo]
  refine ⟨Error_fresh_status _ _ _, ?_, Error_fresh_sentHeader _ _ _, rfl⟩
  rw [Error_fresh_body]
  decide

theorem C7_transport_error_witness :
    (unreachable.ServeHTTP (ResponseWriter.fresh none) (getRequest "/a.png" [])).w.status
      = some 502 ∧
    (unreachable.ServeHTTP (ResponseWriter.fresh none) (getRequest "/a.png" [])).w.body
      = bytesOf "Failed to fetch from OSS\n" ∧
    (unreachable.ServeHTTP (ResponseWriter.fresh none) (getRequest "/a.png" [])).w.sentHeader
      = errorHeader ∧
    (unreachable.ServeHTTP (ResponseWriter.fresh none) (getRequest "/a.png" [])).outbound.length
      = 1 :=
  C7_transport_error unreachable none (getRequest "/a.png" [])
    (plainOutbound "/a.png")
    "dial tcp: i/o timeout" none (by decide) (by decide) rfl

/-- C8. For every request and every time, `healthCheck` sends status 200 with
`Content-Type: application/json`, writes the body made of the fixed text around
`Format(RFC3339)` of the time, that body is a JSON object whose `status` is the
string `ok` and whose `timestamp` is the formatted time, and no outbound
request is made; for every time that is a calendar date of the years 0 to 9999
with a clock time, as the system clock yields, the timestamp is an RFC 3339
`date-time`. -/
theorem C8_health_check (now : Time) (l : Option Nat) (r : Request) :
    (healthCheck now (ResponseWriter.fresh l) r).w.status = some 200 ∧
    (healthCheck now (ResponseWriter.fresh l) r).w.sentHeader.values "Content-Type"
      = ["application/json"] ∧
    (healthCheck now (ResponseWriter.fresh l) r).w.body =
      bytesOf ("\x7b\"status\": \"ok\", \"timestamp\": \"" ++ now.Format ++ "\"\x7d") ∧
    parseJSONObject ("\x7b\"status\": \"ok\", \"timestamp\": \"" ++ now.Format ++ "\"\x7d").toList
      = some [("status", "ok"), ("timestamp", now.Format)] ∧
    (healthCheck now (ResponseWriter.fresh l) r).outbound = [] ∧
    (now.valid → isRFC3339 now.Format.toList = true) := by
  obtain ⟨n, hev⟩ := healthCheck_events now l r
  refine ⟨?_, ?_, ?_, ?_, rfl, isRFC3339_Format now⟩
  · simp [ResponseWriter.status, hev]
  · simp [ResponseWriter.sentHeader, hev, Header.values]
  · simp [ResponseWriter.body, hev]
  · have hl : ("\x7b\"status\": \"ok\", \"timestamp\": \"" ++ now.Format ++ "\"\x7d").toList =
        "\x7b\"status\": \"ok\", \"timestamp\": \"".toList ++ now.Format.toList ++ "\"\x7d".toList := by
      simp [String.toList]
    rw [hl, parseJSONObject_health _ (fun c hc => stamp_plain c (Format_stamp now c hc))]
    rfl

theorem C8_health_check_witness :
    sampleTime.valid ∧ sampleTime.Format = "2026-11-01T09:05:00+08:00" ∧
    isRFC3339 sampleTime.Format.toList = true :=
  ⟨by decide, by decide,
    (C8_health_check sampleTime none { Method := "POST", URL := { Path := "/health" } }).2.2.2.2.2
      (by decide)⟩

/-- C9. When `http.NewRequest` rejects the string `ossBaseURL ++ path`, the
caller gets status 500 with the body `Internal server error` and a newline,
nothing is handed to the client, and the handler returns its outcome. -/
theorem C9_construction_error (p : OSSProxy) (l : Option Nat) (r : Request)
    (e : RequestError) (hm : r.Method = "GET")
    (hq : NewRequest "GET" (ossBaseURL ++ r.URL.Path) none = .error e) :
    (p.ServeHTTP (ResponseWriter.fresh l) r).w.status = some 500 ∧
    (p.ServeHTTP (ResponseWriter.fresh l) r).w.body = bytesOf "Internal server error\n" ∧
    (p.ServeHTTP (ResponseWriter.fresh l) r).outbound = [] ∧
    (p.ServeHTTP (ResponseWriter.fresh l) r).logs =
      [.proxying r.URL.Path (ossBaseURL ++ r.URL.Path), .createFailed e] := by
  rw [ServeHTTP_createFailed p _ r e hm hq]
  refine ⟨Error_fresh_status _ _ _, ?_, rfl, rfl⟩
  rw [Error_fresh_body]
  decide

theorem C9_construction_error_witness :
    ((answering notFound).ServeHTTP (ResponseWriter.fresh none)
      (getRequest "/a%zz" [])).w.status = some 500 ∧
    ((answering notFound).ServeHTTP (ResponseWriter.fresh none)
      (getRequest "/a%zz" [])).w.body = bytesOf "Internal server error\n" ∧
    ((answering notFound).ServeHTTP (ResponseWriter.fresh none)
      (getRequest "/a%zz" [])).outbound = [] ∧
    ((answering notFound).ServeHTTP (ResponseWriter.fresh none)
      (getRequest "/a%zz" [])).logs =
      [.proxying "/a%zz" (ossBaseURL ++ "/a%zz"), .createFailed (.escapeError "%zz")] :=
  C9_construction_error (answering notFound) none (getRequest "/a%zz" [])
    (.escapeError "%zz") (by decide) (by decide)

/-- C10. Two `GET` requests that agree on the URL path and on the first value
of each of the four listed headers lead to the same outbound requests (method,
URL, headers, body, host), whatever else differs between them: query string,
body, host, other headers, further values, the upstream, the caller's writer. -/
theorem C10_outbound_depends_on_path_and_first_values (p1 p2 : OSSProxy)
    (w1 w2 : ResponseWriter) (r1 r2 : Request)
    (hm1 : r1.Method = "GET") (hm2 : r2.Method = "GET")
    (hpath : r1.URL.Path = r2.URL.Path)
    (hfirst : ∀ H ∈ copyHeaders,
      (r1.Header.values H).headD "" = (r2.Header.values H).headD "") :
    (p1.ServeHTTP w1 r1).outbound = (p2.ServeHTTP w2 r2).outbound := by
  have hget : ∀ H ∈ copyHeaders, r1.Header.Get H = r2.Header.Get H := by
    intro H hH
    rw [Get_eq_headD _ _ (canonical_copyHeaders H hH),
      Get_eq_headD _ _ (canonical_copyHeaders H hH), hfirst H hH]
  rw [ServeHTTP_outbound, ServeHTTP_outbound, hpath]
  simp only [hm1, hm2, ne_eq, not_true_eq_false, if_false]
  cases NewRequest "GET" (ossBaseURL ++ r2.URL.Path) none with
  | error e => rfl
  | ok q0 => simp only [copyRequestHeaders_congr r1 r2 copyHeaders q0 hget]

theorem C10_outbound_depends_on_path_and_first_values_witness :
    browserRequest.URL.RawQuery ≠ otherRequest.URL.RawQuery ∧
    browserRequest.Body ≠ otherRequest.Body ∧
    browserRequest.Host ≠ otherRequest.Host ∧
    browserRequest.Header.values "Accept" ≠ otherRequest.Header.values "Accept" ∧
    (unreachable.ServeHTTP (ResponseWriter.fresh (some 0)) otherRequest).outbound.length = 1 ∧
    (∀ q ∈ (unreachable.ServeHTTP (ResponseWriter.fresh (some 0)) otherRequest).outbound,
      q.URL.RawQuery = "") ∧
    ((answering notFound).ServeHTTP (ResponseWriter.fresh none) browserRequest).outbound =
      (unreachable.ServeHTTP (ResponseWriter.fresh (some 0)) otherRequest).outbound :=
  ⟨by decide, by decide, by decide, by decide, by decide, by decide,
    C10_outbound_depends_on_path_and_first_values (answering notFound) unreachable
      (ResponseWriter.fresh none) (ResponseWriter.fresh (some 0)) browserRequest otherRequest
      (by decide) (by decide) (by decide) (by decide)⟩

end OSSForwarder
